import Mathlib

/-!
# Verification of the `ash_allocator` composable GPU memory allocator

This file gives a shallow embedding of the core data structures and
operations of the allocator stack (`PageArena`, `PageSuballocator`,
`MemoryTypePoolAllocator`, `SizedAllocator`, `DedicatedAllocator`,
`TraceAllocator`, `DeviceMemory`, `FakeAllocator`) and proves or refutes
the behavioural claims made about them.

Machine integers (`u64`, `usize`, `u32`) are embedded as `Nat`; the one
place where wrap-around of unsigned arithmetic is observable on the
inputs exercised here — the `page_count - 1` subtraction inside
`PageArena::find_first_free_chunk` — is modelled explicitly with a
wrapping subtraction modulo `2 ^ 64`.  Fallible operations return
`Except`; the early-return on a Rust `?` is modelled by propagating the
error value.  Rust `assert!` and `debug_assert!` conditions are stated
as separate propositions and discharged where the corresponding claims
need them.
-/

set_option maxHeartbeats 1000000

deriving instance DecidableEq for Except

/-- From `page_arena.rs`: a page is either free or allocated, and an
allocated page records the index of the first page of its chunk. -/
inductive Page where
  | free : Page
  | allocated (first_in_chunk : Nat) : Page
deriving DecidableEq, Repr

/-- From `page_arena.rs`: a contiguous collection of pages plus the
number of live chunks. -/
structure PageArena where
  pages : List Page
  allocation_count : Nat
deriving DecidableEq, Repr

/-- `usize` wrapping subtraction of 1, as performed (in release builds)
by the expression `page_count - 1` in `find_first_free_chunk`.  In debug
builds `page_count = 0` would panic instead. -/
def wrappingPredUsize (n : Nat) : Nat :=
  (n + (2 ^ 64 - 1)) % 2 ^ 64

/-- The loop of `PageArena::find_first_free_chunk`, with the loop
variables `index`, `in_region` and `start` made explicit.  The list
argument is the not-yet-visited suffix of `pages`. -/
def findAux (pageCount : Nat) : List Page → Nat → Bool → Nat → Option Nat
  | [], _, _, _ => none
  | p :: rest, index, inRegion, start =>
    if p = Page.free then
      let start1 := if inRegion then start else index
      if index - start1 = wrappingPredUsize pageCount then some start1
      else findAux pageCount rest (index + 1) true start1
    else
      findAux pageCount rest (index + 1) false (if inRegion then 0 else start)

/-- From `page_arena.rs`: `PageArena::find_first_free_chunk`. -/
def PageArena.find_first_free_chunk (a : PageArena) (pageCount : Nat) : Option Nat :=
  findAux pageCount a.pages 0 false 0

/-- The assignment loop of `PageArena::allocate_chunk`
(`iter_mut().skip(first_in_chunk).take(page_count)` set to
`Allocated { first_in_chunk }`), with the running index explicit. -/
def setChunkAux (first count : Nat) : List Page → Nat → List Page
  | [], _ => []
  | p :: rest, index =>
    (if first ≤ index ∧ index < first + count then Page.allocated first else p)
      :: setChunkAux first count rest (index + 1)

/-- From `page_arena.rs`: `PageArena::allocate_chunk`.  Returns the Rust
return value together with the updated arena. -/
def PageArena.allocate_chunk (a : PageArena) (pageCount : Nat) : Option Nat × PageArena :=
  match a.find_first_free_chunk pageCount with
  | none => (none, a)
  | some first_in_chunk =>
      (some first_in_chunk,
        { pages := setChunkAux first_in_chunk pageCount a.pages 0,
          allocation_count := a.allocation_count + 1 })

/-- The clearing loop of `PageArena::free_chunk`
(`iter_mut().skip(first_in_chunk).take_while(|p| **p == Allocated{first_in_chunk})`
set to `Free`), applied to the suffix of `pages` starting at
`first_in_chunk`. -/
def clearRun (k : Nat) : List Page → List Page
  | [] => []
  | p :: rest =>
    if p = Page.allocated k then Page.free :: clearRun k rest else p :: rest

/-- From `page_arena.rs`: `PageArena::free_chunk`.  An out-of-bounds
index would panic in Rust (`self.pages[index]`); it is modelled as
leaving the arena unchanged and none of the theorems below exercise it. -/
def PageArena.free_chunk (a : PageArena) (index : Nat) : PageArena :=
  match a.pages.get? index with
  | none => a
  | some Page.free => a
  | some (Page.allocated first_in_chunk) =>
      { pages := a.pages.take first_in_chunk
          ++ clearRun first_in_chunk (a.pages.drop first_in_chunk),
        allocation_count := a.allocation_count - 1 }

/-- From `page_arena.rs`: `PageArena::new`. -/
def PageArena.new (page_count : Nat) : PageArena :=
  { pages := List.replicate page_count Page.free, allocation_count := 0 }

/-- From `page_arena.rs`: `PageArena::is_empty`. -/
def PageArena.is_empty (a : PageArena) : Bool :=
  a.allocation_count = 0

/-- The fields of `Allocation` (from `allocation.rs`) used by the
suballocation claims: the underlying `vk::DeviceMemory` handle
(embedded as a `Nat` identifier), the offset and the size. -/
structure Allocation where
  memory : Nat
  offset_in_bytes : Nat
  size_in_bytes : Nat
deriving DecidableEq, Repr

/-- From `allocation.rs`: `Allocation::suballocate` (the offset/size
computation; the allocation shares the parent's device memory and its
offset is relative to the parent's offset). -/
def Allocation.suballocate (allocation : Allocation) (offset size_in_bytes : Nat) : Allocation :=
  { memory := allocation.memory,
    offset_in_bytes := allocation.offset_in_bytes + offset,
    size_in_bytes := size_in_bytes }

/-- The bounds `assert!` of `Allocation::suballocate`:
`full_offset + size_in_bytes <= allocation.offset_in_bytes() + allocation.size_in_bytes()`. -/
def suballocateBoundsAssert (allocation : Allocation) (offset size_in_bytes : Nat) : Prop :=
  allocation.offset_in_bytes + offset + size_in_bytes
    ≤ allocation.offset_in_bytes + allocation.size_in_bytes

/-- From `page_suballocator/mod.rs`: `div_ceil`. -/
def div_ceil (top bottom : Nat) : Nat :=
  top / bottom + (if top % bottom ≠ 0 then 1 else 0)

/-- The error values produced by the allocator stack, keyed by the
message carried in the corresponding `AllocatorError::RuntimeError`. -/
inductive AllocError where
  /-- "Unable to find a contiguous chunk of the requseted size." -/
  | noContiguousChunk
  /-- "Memory type index mismatch" -/
  | memoryTypeMismatch
  /-- "Unable to allocate a chunk of memory with {} bytes" -/
  | chunkTooBig (size_in_bytes : Nat)
deriving DecidableEq, Repr

/-- From `page_suballocator/mod.rs`: the `PageSuballocator` state. -/
structure PageSuballocator where
  allocation : Allocation
  page_size_in_bytes : Nat
  arena : PageArena
deriving DecidableEq, Repr

/-- From `page_suballocator/mod.rs`: `PageSuballocator::for_allocation`.
The Rust constructor asserts `allocation.size_in_bytes % page_size_in_bytes == 0`;
theorems that depend on it take that condition as a hypothesis. -/
def PageSuballocator.for_allocation (allocation : Allocation)
    (page_size_in_bytes : Nat) : PageSuballocator :=
  { allocation := allocation,
    page_size_in_bytes := page_size_in_bytes,
    arena := PageArena.new (allocation.size_in_bytes / page_size_in_bytes) }

/-- From `page_suballocator/mod.rs`: `PageSuballocator::release_allocation`. -/
def PageSuballocator.release_allocation (s : PageSuballocator) : Allocation :=
  s.allocation

/-- From `page_suballocator/mod.rs`: `PageSuballocator::is_empty`. -/
def PageSuballocator.is_empty (s : PageSuballocator) : Bool :=
  s.arena.is_empty

/-- From `page_suballocator/mod.rs`: `PageSuballocator::allocate_unaligned`.
The local `page_count = div_ceil(size_in_bytes, page_size_in_bytes)` is
inlined. -/
def PageSuballocator.allocate_unaligned (s : PageSuballocator) (size_in_bytes : Nat) :
    Except AllocError Allocation × PageSuballocator :=
  match s.arena.allocate_chunk (div_ceil size_in_bytes s.page_size_in_bytes) with
  | (none, arena1) => (.error .noContiguousChunk, { s with arena := arena1 })
  | (some starting_index, arena1) =>
      (.ok (Allocation.suballocate s.allocation
          (starting_index * s.page_size_in_bytes) size_in_bytes),
        { s with arena := arena1 })

/-- The `alignment_correction` computed by `PageSuballocator::allocate`
for an unaligned suballocation. -/
def alignmentCorrection (offset_in_bytes alignment : Nat) : Nat :=
  if offset_in_bytes % alignment = 0 then 0
  else alignment - offset_in_bytes % alignment

/-- From `page_suballocator/mod.rs`: `PageSuballocator::allocate`.  The
local `aligned_size = size_in_bytes + (alignment - 1)` is inlined. -/
def PageSuballocator.allocate (s : PageSuballocator) (size_in_bytes alignment : Nat) :
    Except AllocError Allocation × PageSuballocator :=
  if (s.allocation.offset_in_bytes + s.page_size_in_bytes) % alignment = 0 then
    s.allocate_unaligned size_in_bytes
  else
    match s.allocate_unaligned (size_in_bytes + (alignment - 1)) with
    | (.error e, s1) => (.error e, s1)
    | (.ok unaligned, s1) =>
        (.ok (Allocation.suballocate unaligned
            (alignmentCorrection unaligned.offset_in_bytes alignment) size_in_bytes), s1)

/-- From `page_suballocator/mod.rs`: `PageSuballocator::free`.  The locals
`relative_offset` and `page_index` are inlined. -/
def PageSuballocator.free (s : PageSuballocator) (allocation : Allocation) :
    PageSuballocator :=
  if s.allocation.memory ≠ allocation.memory then s
  else
    { s with
      arena := s.arena.free_chunk
        ((allocation.offset_in_bytes - s.allocation.offset_in_bytes)
          / s.page_size_in_bytes) }

section SanityExamples

example : div_ceil 1 2 = 1 := by decide
example : div_ceil 7 3 = 3 := by decide
example : (PageArena.new 5).find_first_free_chunk 1 = some 0 := by decide
example : (PageArena.new 5).find_first_free_chunk 5 = some 0 := by decide
example : (PageArena.new 5).find_first_free_chunk 6 = none := by decide

/-- The arena `f|1|1|f|f|f|6|6|6|6|f|f` from the repository's own
`test_find_first_free_chunk`. -/
def testArena : PageArena :=
  { pages := [Page.free, Page.allocated 1, Page.allocated 1, Page.free, Page.free,
      Page.free, Page.allocated 6, Page.allocated 6, Page.allocated 6,
      Page.allocated 6, Page.free, Page.free],
    allocation_count := 2 }

example : testArena.find_first_free_chunk 1 = some 0 := by decide
example : testArena.find_first_free_chunk 2 = some 3 := by decide
example : testArena.find_first_free_chunk 3 = some 3 := by decide
example : testArena.find_first_free_chunk 4 = none := by decide

example : ((PageArena.new 10).allocate_chunk 5).1 = some 0 := by decide
example :
    ((((PageArena.new 10).allocate_chunk 5).2.allocate_chunk 2).2.allocate_chunk 3).1
      = some 7 := by decide

/-- `test_page_arena_free`: freeing via an index in the middle of the
chunk `f|f|2|2|2|2` clears the whole chunk. -/
example :
    (PageArena.mk [Page.free, Page.free, Page.allocated 2, Page.allocated 2,
        Page.allocated 2, Page.allocated 2] 1).free_chunk 4
      = PageArena.mk (List.replicate 6 Page.free) 0 := by decide

end SanityExamples

/-! ## Basic lemmas about the arena primitives -/

theorem wrappingPredUsize_eq {pc : Nat} (h1 : 1 ≤ pc) (h2 : pc < 2 ^ 64) :
    wrappingPredUsize pc = pc - 1 := by
  unfold wrappingPredUsize
  have hsplit : pc + (2 ^ 64 - 1) = (pc - 1) + 1 * 2 ^ 64 := by omega
  rw [hsplit, Nat.add_mul_mod_self_right, Nat.mod_eq_of_lt (by omega)]

theorem div_ceil_mul_ge (n ps : Nat) (hps : 1 ≤ ps) : n ≤ div_ceil n ps * ps := by
  by_cases h : n % ps = 0
  · have heq : div_ceil n ps = n / ps := by simp [div_ceil, h]
    rw [heq, Nat.div_mul_cancel (Nat.dvd_of_mod_eq_zero h)]
  · have heq : div_ceil n ps = n / ps + 1 := by simp [div_ceil, h]
    rw [heq]
    calc n = ps * (n / ps) + n % ps := (Nat.div_add_mod n ps).symm
    _ ≤ ps * (n / ps) + ps := by
        have := Nat.mod_lt n (show 0 < ps by omega)
        omega
    _ = (n / ps + 1) * ps := by ring

theorem div_ceil_pos {n ps : Nat} (hn : 1 ≤ n) (hps : 1 ≤ ps) : 1 ≤ div_ceil n ps := by
  by_cases h : n % ps = 0
  · have heq : div_ceil n ps = n / ps := by simp [div_ceil, h]
    rw [heq]
    exact (Nat.one_le_div_iff (by omega)).mpr
      (Nat.le_of_dvd (by omega) (Nat.dvd_of_mod_eq_zero h))
  · have heq : div_ceil n ps = n / ps + 1 := by simp [div_ceil, h]
    rw [heq]
    exact Nat.le_add_left 1 (n / ps)

theorem div_ceil_le_self {n ps : Nat} (hn : 1 ≤ n) (hps : 1 ≤ ps) : div_ceil n ps ≤ n := by
  by_cases h : n % ps = 0
  · have heq : div_ceil n ps = n / ps := by simp [div_ceil, h]
    rw [heq]
    exact Nat.div_le_self n ps
  · have heq : div_ceil n ps = n / ps + 1 := by simp [div_ceil, h]
    rw [heq]
    have hps2 : 2 ≤ ps := by
      rcases Nat.lt_or_ge ps 2 with h2 | h2
      · exfalso
        have : ps = 1 := by omega
        rw [this, Nat.mod_one] at h
        exact h rfl
      · exact h2
    have hd2 : n / ps ≤ n / 2 := Nat.div_le_div_left hps2 (by omega)
    have hlt := Nat.div_lt_self (show 0 < n by omega) (show 1 < 2 by omega)
    exact Nat.succ_le_of_lt (Nat.lt_of_le_of_lt hd2 hlt)

/-- Soundness of the `find_first_free_chunk` loop: a returned index
points at a run of `pageCount` free pages lying inside the arena. -/
theorem findAux_sound (pages : List Page) (pc : Nat) (hpc : 1 ≤ pc) (hlt : pc < 2 ^ 64) :
    ∀ (l : List Page) (index : Nat) (inRegion : Bool) (start k : Nat),
      l = pages.drop index →
      (inRegion = true → start ≤ index ∧
        ∀ j, start ≤ j → j < index → pages.get? j = some Page.free) →
      findAux pc l index inRegion start = some k →
      k + pc ≤ pages.length ∧ ∀ j, k ≤ j → j < k + pc → pages.get? j = some Page.free := by
  intro l
  induction l with
  | nil => intro index inRegion start k _ _ hfind; simp [findAux] at hfind
  | cons p rest ih =>
    intro index inRegion start k hdrop hreg hfind
    have hhead : pages.get? index = some p := by
      have : (pages.drop index).get? 0 = some p := by rw [← hdrop]; rfl
      rwa [List.get?_drop, Nat.add_zero] at this
    have hrest : rest = pages.drop (index + 1) := by
      have h1 : (p :: rest).tail = (pages.drop index).tail := by rw [hdrop]
      rwa [List.tail_cons, List.tail_drop] at h1
    have hindexlt : index < pages.length := by
      by_contra hcon
      rw [List.get?_eq_none.mpr (by omega)] at hhead
      exact Option.noConfusion hhead
    rw [findAux] at hfind
    by_cases hp : p = Page.free
    · simp only [hp, if_true] at hfind
      set start1 := if inRegion then start else index with hstart1
      have hs1le : start1 ≤ index := by
        rw [hstart1]
        cases inRegion with
        | false => simp
        | true => simp only [if_true]; exact (hreg rfl).1
      have hs1free : ∀ j, start1 ≤ j → j < index → pages.get? j = some Page.free := by
        intro j hj1 hj2
        rw [hstart1] at hj1
        cases inRegion with
        | false => simp at hj1; omega
        | true => exact (hreg rfl).2 j hj1 hj2
      rw [wrappingPredUsize_eq hpc hlt] at hfind
      by_cases hhit : index - start1 = pc - 1
      · rw [if_pos hhit] at hfind
        have hk : start1 = k := Option.some.inj hfind
        rw [← hk]
        constructor
        · omega
        · intro j hj1 hj2
          rcases Nat.lt_or_ge j index with hj | hj
          · exact hs1free j hj1 hj
          · have : j = index := by omega
            rw [this, hhead, hp]
      · rw [if_neg hhit] at hfind
        refine ih (index + 1) true start1 k hrest ?_ hfind
        intro _
        constructor
        · omega
        · intro j hj1 hj2
          rcases Nat.lt_or_ge j index with hj | hj
          · exact hs1free j hj1 hj
          · have : j = index := by omega
            rw [this, hhead, hp]
    · rw [if_neg hp] at hfind
      refine ih (index + 1) false _ k hrest ?_ hfind
      intro h
      exact absurd h (by simp)

theorem setChunkAux_get? (first count : Nat) :
    ∀ (l : List Page) (i0 j : Nat),
      (setChunkAux first count l i0).get? j
        = (l.get? j).map (fun p =>
            if first ≤ i0 + j ∧ i0 + j < first + count then Page.allocated first else p) := by
  intro l
  induction l with
  | nil => intro i0 j; simp [setChunkAux]
  | cons p rest ih =>
    intro i0 j
    cases j with
    | zero => simp [setChunkAux]
    | succ j =>
      simp only [setChunkAux, List.get?]
      rw [ih (i0 + 1) j]
      have : i0 + 1 + j = i0 + (j + 1) := by omega
      rw [this]

theorem setChunkAux_length (first count : Nat) :
    ∀ (l : List Page) (i0 : Nat), (setChunkAux first count l i0).length = l.length := by
  intro l
  induction l with
  | nil => intro i0; rfl
  | cons p rest ih => intro i0; simp [setChunkAux, ih]

theorem clearRun_get? (k : Nat) :
    ∀ (l : List Page) (m : Nat),
      (∀ j, j < m → l.get? j = some (Page.allocated k)) →
      l.get? m ≠ some (Page.allocated k) →
      ∀ j, (clearRun k l).get? j = if j < m then some Page.free else l.get? j := by
  intro l
  induction l with
  | nil =>
    intro m h1 _ j
    cases m with
    | zero => simp [clearRun]
    | succ m => exact absurd (h1 0 (by omega)) (by simp)
  | cons p rest ih =>
    intro m h1 h2 j
    by_cases hp : p = Page.allocated k
    · cases m with
      | zero => exact absurd (by rw [hp]; rfl) h2
      | succ m =>
        simp only [clearRun, hp, if_pos rfl]
        cases j with
        | zero => simp
        | succ j =>
          have hrec := ih m (fun j hj => h1 (j + 1) (by omega)) h2 j
          simp only [List.get?]
          rw [hrec]
          by_cases hj : j < m
          · rw [if_pos hj, if_pos (by omega)]
          · rw [if_neg hj, if_neg (by omega)]
    · have hm : m = 0 := by
        by_contra hm
        exact hp (by have := h1 0 (by omega); simpa using this)
      subst hm
      simp only [clearRun, if_neg hp]
      simp

/-! ## C1: size and alignment of `PageSuballocator::allocate` results -/


theorem allocate_unaligned_ok_shape (s : PageSuballocator) (size_in_bytes : Nat)
    (a : Allocation) (hok : (s.allocate_unaligned size_in_bytes).1 = .ok a) :
    ∃ k, (s.arena.allocate_chunk (div_ceil size_in_bytes s.page_size_in_bytes)).1 = some k
      ∧ a = Allocation.suballocate s.allocation (k * s.page_size_in_bytes) size_in_bytes := by
  unfold PageSuballocator.allocate_unaligned at hok
  rcases hchunk : s.arena.allocate_chunk (div_ceil size_in_bytes s.page_size_in_bytes)
    with ⟨r, arena1⟩
  rw [hchunk] at hok
  cases r with
  | none => exact absurd hok (by simp)
  | some k =>
    simp only at hok
    exact ⟨k, rfl, (Except.ok.inj hok).symm⟩

theorem alignmentCorrection_le {offset_in_bytes alignment : Nat} (hal : 1 ≤ alignment) :
    alignmentCorrection offset_in_bytes alignment ≤ alignment - 1 := by
  unfold alignmentCorrection
  by_cases h : offset_in_bytes % alignment = 0
  · rw [if_pos h]; omega
  · rw [if_neg h]
    have := Nat.mod_lt offset_in_bytes (show 0 < alignment by omega)
    omega

theorem alignmentCorrection_aligns {offset_in_bytes alignment : Nat} (hal : 1 ≤ alignment) :
    (offset_in_bytes + alignmentCorrection offset_in_bytes alignment) % alignment = 0 := by
  unfold alignmentCorrection
  by_cases h : offset_in_bytes % alignment = 0
  · rw [if_pos h, Nat.add_zero]; exact h
  · rw [if_neg h]
    have hdm := Nat.div_add_mod offset_in_bytes alignment
    have hr : offset_in_bytes % alignment < alignment := Nat.mod_lt _ (by omega)
    have hsum : offset_in_bytes + (alignment - offset_in_bytes % alignment)
        = alignment * (offset_in_bytes / alignment + 1) := by
      rw [Nat.mul_add, Nat.mul_one]
      omega
    rw [hsum]
    exact Nat.mul_mod_right alignment _

/-- C1 (amended): if the backing allocation's `offset_in_bytes` is itself a
multiple of the requested alignment (a power of two, at least 1) and the
backing size is a multiple of the page size, then a successful
`PageSuballocator::allocate(size_in_bytes, alignment)` returns an
allocation with exactly the requested size and an offset that is a
multiple of the alignment. -/
theorem c1_allocate_size_and_alignment
    (s : PageSuballocator) (size_in_bytes alignment : Nat) (a : Allocation)
    (hpow : ∃ e : Nat, alignment = 2 ^ e)
    (hmult : s.allocation.size_in_bytes % s.page_size_in_bytes = 0)
    (hbase : s.allocation.offset_in_bytes % alignment = 0)
    (hok : (s.allocate size_in_bytes alignment).1 = .ok a) :
    a.size_in_bytes = size_in_bytes ∧ a.offset_in_bytes % alignment = 0 := by
  have hal : 1 ≤ alignment := by
    obtain ⟨e, he⟩ := hpow
    rw [he]
    exact Nat.one_le_two_pow
  unfold PageSuballocator.allocate at hok
  by_cases hcond :
      (s.allocation.offset_in_bytes + s.page_size_in_bytes) % alignment = 0
  · rw [if_pos hcond] at hok
    obtain ⟨k, _, ha⟩ := allocate_unaligned_ok_shape s size_in_bytes a hok
    subst ha
    refine ⟨rfl, ?_⟩
    show (s.allocation.offset_in_bytes + k * s.page_size_in_bytes) % alignment = 0
    have hd1 : alignment ∣ s.allocation.offset_in_bytes := Nat.dvd_of_mod_eq_zero hbase
    have hd2 : alignment ∣ s.allocation.offset_in_bytes + s.page_size_in_bytes :=
      Nat.dvd_of_mod_eq_zero hcond
    have hd3 : alignment ∣ s.page_size_in_bytes := (Nat.dvd_add_right hd1).mp hd2
    have hd4 : alignment ∣ k * s.page_size_in_bytes := Dvd.dvd.mul_left hd3 k
    exact Nat.mod_eq_zero_of_dvd (Nat.dvd_add hd1 hd4)
  · rw [if_neg hcond] at hok
    rcases hun : s.allocate_unaligned (size_in_bytes + (alignment - 1)) with ⟨r, s1⟩
    rw [hun] at hok
    cases r with
    | error e => exact absurd hok (by simp)
    | ok unaligned =>
      simp only at hok
      replace hok := (Except.ok.inj hok).symm
      subst hok
      exact ⟨rfl, alignmentCorrection_aligns hal⟩

/-- C1 (counterexample): with a backing allocation at offset 4 (size 4,
page size 4) the check `(offset + page_size) % alignment == 0` passes for
alignment 8, so `allocate(1, 8)` takes the unaligned path and returns an
allocation at offset 4, which is not 8-aligned — even though the backing
size is a multiple of the page size and 8 is a power of two. -/
theorem c1_counterexample :
    ((PageSuballocator.for_allocation (Allocation.mk 7 4 4) 4).allocate 1 8).1
        = Except.ok (Allocation.mk 7 4 1)
    ∧ (Allocation.mk 7 4 1).offset_in_bytes % 8 ≠ 0
    ∧ (Allocation.mk 7 4 4).size_in_bytes % 4 = 0
    ∧ (8 : Nat) = 2 ^ 3 := by decide

/-- Witness for `c1_allocate_size_and_alignment` at a concrete input. -/
theorem c1_witness :
    ((PageSuballocator.for_allocation (Allocation.mk 7 8 16) 4).allocate 3 8).1
        = Except.ok (Allocation.mk 7 8 3)
    ∧ (Allocation.mk 7 8 3).size_in_bytes = 3
    ∧ (Allocation.mk 7 8 3).offset_in_bytes % 8 = 0 := by
  refine ⟨by decide, ?_⟩
  exact c1_allocate_size_and_alignment
    (PageSuballocator.for_allocation (Allocation.mk 7 8 16) 4) 3 8
    (Allocation.mk 7 8 3) ⟨3, by norm_num⟩ (by decide) (by decide) (by decide)

/-! ## C10: zero-sized requests -/

theorem findAux_zero_none :
    ∀ (l : List Page) (index : Nat) (inRegion : Bool) (start : Nat),
      index + l.length < 2 ^ 64 →
      (inRegion = true → start ≤ index) →
      findAux 0 l index inRegion start = none := by
  intro l
  induction l with
  | nil => intro index inRegion start _ _; rfl
  | cons p rest ih =>
    intro index inRegion start hlen hreg
    rw [findAux]
    by_cases hp : p = Page.free
    · rw [if_pos hp]
      have hw : wrappingPredUsize 0 = 2 ^ 64 - 1 := by
        unfold wrappingPredUsize
        rw [Nat.zero_add]
        exact Nat.mod_eq_of_lt (by norm_num)
      have hs1 : (if inRegion then start else index) ≤ index := by
        cases inRegion with
        | false => simp
        | true => simp only [if_true]; exact hreg rfl
      have hne : ¬(index - (if inRegion then start else index)
          = wrappingPredUsize 0) := by
        rw [hw]
        simp only [List.length_cons] at hlen
        omega
      rw [if_neg hne]
      exact ih (index + 1) true _ (by simp only [List.length_cons] at hlen; omega)
        (fun _ => by omega)
    · rw [if_neg hp]
      exact ih (index + 1) false _ (by simp only [List.length_cons] at hlen; omega)
        (fun h => by exact absurd h (by simp))

/-- In release builds `allocate_chunk(0)` never succeeds: the wrapped
`page_count - 1` comparison can never be matched by an in-bounds index. -/
theorem allocate_chunk_zero_none (a : PageArena) (hlen : a.pages.length < 2 ^ 64) :
    a.allocate_chunk 0 = (none, a) := by
  have hf : a.find_first_free_chunk 0 = none :=
    findAux_zero_none a.pages 0 false 0 (by omega) (fun h => absurd h (by simp))
  unfold PageArena.allocate_chunk
  rw [hf]

/-- C10 (amended): `PageArena::allocate_chunk(0)` never returns `Some`
(in release builds; debug builds panic on the `page_count - 1`
underflow), and consequently `PageSuballocator::allocate(0, alignment)`
fails with the no-contiguous-chunk error whenever the page-boundary
alignment check passes, i.e. when
`(backing.offset_in_bytes + page_size) % alignment == 0` (in particular
for `alignment == 1`).  In the alignment-correction path a zero-sized
request can instead succeed (see the counterexample). -/
theorem c10_zero_sized_allocate (s : PageSuballocator) (alignment : Nat)
    (hcond : (s.allocation.offset_in_bytes + s.page_size_in_bytes) % alignment = 0)
    (hlen : s.arena.pages.length < 2 ^ 64) :
    (s.allocate 0 alignment).1 = Except.error AllocError.noContiguousChunk
    ∧ (s.allocate 0 alignment).2 = s
    ∧ (∀ b : PageArena, b.pages.length < 2 ^ 64 → (b.allocate_chunk 0).1 = none) := by
  have hdc : div_ceil 0 s.page_size_in_bytes = 0 := by
    simp [div_ceil, Nat.zero_mod, Nat.zero_div]
  have hchunk := allocate_chunk_zero_none s.arena hlen
  have hmain : s.allocate 0 alignment
      = (Except.error AllocError.noContiguousChunk, s) := by
    unfold PageSuballocator.allocate
    rw [if_pos hcond]
    unfold PageSuballocator.allocate_unaligned
    rw [hdc, hchunk]
  refine ⟨by rw [hmain], by rw [hmain], ?_⟩
  intro b hb
  rw [allocate_chunk_zero_none b hb]

/-- C10 (counterexample): a zero-sized request is satisfied when the
alignment-correction path is taken — `allocate(0, 4)` on a fresh
4-page suballocator (page size 1, backing offset 0) returns `Ok` with an
empty allocation instead of failing. -/
theorem c10_counterexample :
    ((PageSuballocator.for_allocation (Allocation.mk 0 0 4) 1).allocate 0 4).1
      = Except.ok (Allocation.mk 0 0 0)
    ∧ (Allocation.mk 0 0 0).size_in_bytes = 0 := by decide

/-- Witness for `c10_zero_sized_allocate` at a concrete input. -/
theorem c10_witness :
    ((0 : Nat) + 1) % 1 = 0
    ∧ ((PageSuballocator.for_allocation (Allocation.mk 0 0 4) 1).allocate 0 1).1
        = Except.error AllocError.noContiguousChunk := by
  refine ⟨by decide, ?_⟩
  exact (c10_zero_sized_allocate (PageSuballocator.for_allocation (Allocation.mk 0 0 4) 1)
    1 (by decide) (by decide)).1

/-! ## C4: allocate_chunk / free_chunk round trip -/

theorem find_first_free_chunk_sound (a : PageArena) (pc k : Nat) (hpc : 1 ≤ pc)
    (hlt : pc < 2 ^ 64) (hfind : a.find_first_free_chunk pc = some k) :
    k + pc ≤ a.pages.length
    ∧ ∀ j, k ≤ j → j < k + pc → a.pages.get? j = some Page.free :=
  findAux_sound a.pages pc hpc hlt a.pages 0 false 0 k rfl
    (fun h => absurd h (by simp)) hfind

theorem allocate_chunk_some (a : PageArena) (pc k : Nat)
    (h : (a.allocate_chunk pc).1 = some k) :
    a.find_first_free_chunk pc = some k
    ∧ a.allocate_chunk pc
      = (some k, { pages := setChunkAux k pc a.pages 0,
                   allocation_count := a.allocation_count + 1 }) := by
  unfold PageArena.allocate_chunk at h ⊢
  rcases hf : a.find_first_free_chunk pc with _ | k0
  · rw [hf] at h
    exact absurd h (by simp)
  · rw [hf] at h
    simp only [Option.some.injEq] at h
    subst h
    exact ⟨rfl, rfl⟩

/-- Get-characterisation of the pages after `free_chunk` clears the run
`[k, k+n)`, provided the run is exactly `n` pages long. -/
theorem freeChunkPages_get? (pages : List Page) (k n : Nat)
    (hlen : k + n ≤ pages.length)
    (hrun : ∀ j, k ≤ j → j < k + n → pages.get? j = some (Page.allocated k))
    (hstop : pages.get? (k + n) ≠ some (Page.allocated k)) :
    ∀ j, (pages.take k ++ clearRun k (pages.drop k)).get? j
      = if k ≤ j ∧ j < k + n then some Page.free else pages.get? j := by
  intro j
  have htakelen : (pages.take k).length = k :=
    List.length_take_of_le (by omega)
  have hclear := clearRun_get? k (pages.drop k) n
    (fun t ht => by rw [List.get?_drop]; exact hrun (k + t) (by omega) (by omega))
    (by rw [List.get?_drop]; exact hstop)
  rcases Nat.lt_or_ge j k with hj | hj
  · rw [List.get?_append (by omega), List.get?_take hj, if_neg (by omega)]
  · rw [List.get?_append_right (by omega), htakelen, hclear (j - k)]
    by_cases hcase : j - k < n
    · rw [if_pos hcase, if_pos (by omega)]
    · rw [if_neg hcase, if_neg (by omega), List.get?_drop]
      congr 1
      omega

/-- The invariant that every allocated page is part of a contiguous run
reaching back to the recorded first page of its chunk.  All states
reachable through the public `PageArena` interface satisfy it. -/
def chunkRunsDownClosed (pages : List Page) : Prop :=
  ∀ i k, pages.get? i = some (Page.allocated k) →
    ∀ j, k ≤ j → j ≤ i → pages.get? j = some (Page.allocated k)

theorem chunkRunsDownClosed_replicate (n : Nat) :
    chunkRunsDownClosed (List.replicate n Page.free) := by
  intro i k h
  exfalso
  have hmem := List.get?_mem h
  have := List.eq_of_mem_replicate hmem
  exact Page.noConfusion this

/-- C4 (amended): on an arena satisfying the chunk-run invariant (which
holds for every state reachable through `new`/`allocate_chunk`/`free_chunk`),
`allocate_chunk(n) = Some(k)` followed by `free_chunk(j)` for any single
`j` with `k <= j < k + n` restores the arena — pages and
`allocation_count` — exactly.  For arbitrary (unreachable) page vectors
the round trip can clear extra pages; see the counterexample. -/
theorem c4_allocate_free_roundtrip (a : PageArena) (n k j : Nat)
    (hinv : chunkRunsDownClosed a.pages)
    (hn : 1 ≤ n) (hn64 : n < 2 ^ 64)
    (halloc : (a.allocate_chunk n).1 = some k)
    (hj1 : k ≤ j) (hj2 : j < k + n) :
    ((a.allocate_chunk n).2).free_chunk j = a := by
  obtain ⟨hfind, heq⟩ := allocate_chunk_some a n k halloc
  obtain ⟨hbound, hfree⟩ := find_first_free_chunk_sound a n k hn hn64 hfind
  rw [heq]
  set pages2 := setChunkAux k n a.pages 0 with hpages2
  have hget2 : ∀ t, pages2.get? t
      = (a.pages.get? t).map
          (fun p => if k ≤ t ∧ t < k + n then Page.allocated k else p) := by
    intro t
    rw [hpages2]
    have := setChunkAux_get? k n a.pages 0 t
    simpa using this
  have hrun2 : ∀ t, k ≤ t → t < k + n → pages2.get? t = some (Page.allocated k) := by
    intro t ht1 ht2
    rw [hget2 t, hfree t ht1 ht2]
    simp only [Option.map_some']
    rw [if_pos ⟨ht1, ht2⟩]
  have hstop2 : pages2.get? (k + n) ≠ some (Page.allocated k) := by
    rw [hget2 (k + n)]
    rcases hcase : a.pages.get? (k + n) with _ | p
    · simp
    · simp only [Option.map_some', if_neg (by omega : ¬(k ≤ k + n ∧ k + n < k + n))]
      intro hcon
      simp only [Option.some.injEq] at hcon
      subst hcon
      have := hinv (k + n) k hcase k (Nat.le_refl k) (by omega)
      rw [hfree k (Nat.le_refl k) (by omega)] at this
      exact Page.noConfusion (Option.some.inj this)
  have hlen2 : pages2.length = a.pages.length := setChunkAux_length k n a.pages 0
  have hgetj : pages2.get? j = some (Page.allocated k) := hrun2 j hj1 hj2
  unfold PageArena.free_chunk
  simp only [hgetj]
  have hpages3 : pages2.take k ++ clearRun k (pages2.drop k) = a.pages := by
    apply List.ext
    intro t
    rw [freeChunkPages_get? pages2 k n (by omega) hrun2 hstop2 t]
    by_cases hcase : k ≤ t ∧ t < k + n
    · rw [if_pos hcase, hfree t hcase.1 hcase.2]
    · rw [if_neg hcase, hget2 t]
      rcases hget : a.pages.get? t with _ | p
      · simp
      · simp only [Option.map_some']
        rw [if_neg hcase]
  rw [hpages3]
  simp only [Nat.add_sub_cancel]

/-- C4 (counterexample): the claim fails on arbitrary `PageArena` states.
In the (unreachable) state `f|0` the freshly allocated one-page chunk at
index 0 absorbs the stale `Allocated{0}` page behind it: `free_chunk(0)`
then clears both pages, so the arena is not restored. -/
theorem c4_counterexample :
    ((PageArena.mk [Page.free, Page.allocated 0] 1).allocate_chunk 1).1 = some 0
    ∧ (((PageArena.mk [Page.free, Page.allocated 0] 1).allocate_chunk 1).2.free_chunk 0)
        ≠ PageArena.mk [Page.free, Page.allocated 0] 1 := by decide

/-- Witness for `c4_allocate_free_roundtrip` at a concrete input. -/
theorem c4_witness :
    ((PageArena.new 2).allocate_chunk 1).1 = some 0
    ∧ (((PageArena.new 2).allocate_chunk 1).2).free_chunk 0 = PageArena.new 2 := by
  refine ⟨by decide, ?_⟩
  exact c4_allocate_free_roundtrip (PageArena.new 2) 1 0 0
    (chunkRunsDownClosed_replicate 2) (by decide) (by decide) (by decide)
    (by decide) (by decide)

/-! ## C2: live sub-allocations of one `PageSuballocator` -/

/-- Byte ranges `[offset, offset+size)` of two allocations do not
intersect. -/
def rangesDisjoint (a b : Allocation) : Prop :=
  ∀ x : Nat, ¬(a.offset_in_bytes ≤ x ∧ x < a.offset_in_bytes + a.size_in_bytes
      ∧ b.offset_in_bytes ≤ x ∧ x < b.offset_in_bytes + b.size_in_bytes)

/-- A call against one `PageSuballocator`: either
`allocate(size_in_bytes, alignment)` or `free` of the `index`-th live
sub-allocation. -/
inductive PSOp where
  | alloc (size_in_bytes alignment : Nat)
  | free (index : Nat)
deriving DecidableEq, Repr

/-- Well-formedness of a single call: `u64` inputs that do not overflow
`size_in_bytes + (alignment - 1)`, a nonzero alignment (zero would panic
on `% 0` in Rust) and — the amendment to claim C2 — a nonzero size. -/
def PSOp.wf : PSOp → Bool
  | .alloc size_in_bytes alignment =>
      decide (1 ≤ size_in_bytes) && decide (1 ≤ alignment)
        && decide (size_in_bytes + alignment ≤ 2 ^ 64)
  | .free _ => true

/-- A `PageSuballocator` together with the sub-allocations returned `Ok`
and not yet freed. -/
structure PSState where
  sub : PageSuballocator
  live : List Allocation
deriving Repr

def PSState.step (st : PSState) : PSOp → PSState
  | .alloc size_in_bytes alignment =>
    match st.sub.allocate size_in_bytes alignment with
    | (.ok a, sub1) => { sub := sub1, live := a :: st.live }
    | (.error _, sub1) => { sub := sub1, live := st.live }
  | .free index =>
    match st.live.get? index with
    | none => st
    | some a => { sub := st.sub.free a, live := st.live.eraseIdx index }

def PSState.run (st : PSState) : List PSOp → PSState
  | [] => st
  | op :: ops => (st.step op).run ops

/-- Bookkeeping for one live sub-allocation: the first page of its chunk,
the number of pages in the chunk, and the allocation handed out. -/
structure LiveChunk where
  start : Nat
  count : Nat
  alloc : Allocation

/-- The coupling invariant between a `PageSuballocator`, its live
sub-allocations and their chunks. -/
structure ChunksInv (sub : PageSuballocator) (live : List Allocation)
    (chunks : List LiveChunk) : Prop where
  ps_pos : 1 ≤ sub.page_size_in_bytes
  live_eq : chunks.map LiveChunk.alloc = live
  count_pos : ∀ c ∈ chunks, 1 ≤ c.count
  pages_marked : ∀ c ∈ chunks, ∀ i, c.start ≤ i → i < c.start + c.count →
    sub.arena.pages.get? i = some (Page.allocated c.start)
  alloc_lower : ∀ c ∈ chunks,
    sub.allocation.offset_in_bytes + c.start * sub.page_size_in_bytes
      ≤ c.alloc.offset_in_bytes
  alloc_upper : ∀ c ∈ chunks,
    c.alloc.offset_in_bytes + c.alloc.size_in_bytes
      ≤ sub.allocation.offset_in_bytes + (c.start + c.count) * sub.page_size_in_bytes
  alloc_size_pos : ∀ c ∈ chunks, 1 ≤ c.alloc.size_in_bytes
  alloc_memory : ∀ c ∈ chunks, c.alloc.memory = sub.allocation.memory
  marked_covered : ∀ i k, sub.arena.pages.get? i = some (Page.allocated k) →
    ∃ c ∈ chunks, c.start = k ∧ k ≤ i ∧ i < c.start + c.count
  starts_distinct : chunks.Pairwise (fun c d => c.start ≠ d.start)

theorem ChunksInv.disjoint {sub : PageSuballocator} {live : List Allocation}
    {chunks : List LiveChunk} (h : ChunksInv sub live chunks) :
    live.Pairwise rangesDisjoint := by
  rw [← h.live_eq, List.pairwise_map]
  refine h.starts_distinct.imp_of_mem ?_
  intro c d hc hd hne x hx
  obtain ⟨hx1, hx2, hx3, hx4⟩ := hx
  have hps := h.ps_pos
  set base := sub.allocation.offset_in_bytes with hbase
  set ps := sub.page_size_in_bytes with hps_def
  have hcl := h.alloc_lower c hc
  have hcu := h.alloc_upper c hc
  have hdl := h.alloc_lower d hd
  have hdu := h.alloc_upper d hd
  have hps0 : 0 < ps := by omega
  have hxc1 : base + c.start * ps ≤ x := le_trans hcl hx1
  have hxc2 : x < base + (c.start + c.count) * ps := lt_of_lt_of_le hx2 hcu
  have hxd1 : base + d.start * ps ≤ x := le_trans hdl hx3
  have hxd2 : x < base + (d.start + d.count) * ps := lt_of_lt_of_le hx4 hdu
  have hbx : base ≤ x := le_trans (Nat.le_add_right _ _) hxc1
  have htc1 : c.start ≤ (x - base) / ps :=
    (Nat.le_div_iff_mul_le hps0).mpr
      (Nat.le_sub_of_add_le (by rw [Nat.add_comm]; exact hxc1))
  have htc2 : (x - base) / ps < c.start + c.count :=
    (Nat.div_lt_iff_lt_mul hps0).mpr
      ((Nat.sub_lt_iff_lt_add hbx).mpr (by linarith [hxc2]))
  have htd1 : d.start ≤ (x - base) / ps :=
    (Nat.le_div_iff_mul_le hps0).mpr
      (Nat.le_sub_of_add_le (by rw [Nat.add_comm]; exact hxd1))
  have htd2 : (x - base) / ps < d.start + d.count :=
    (Nat.div_lt_iff_lt_mul hps0).mpr
      ((Nat.sub_lt_iff_lt_add hbx).mpr (by linarith [hxd2]))
  have h1 := h.pages_marked c hc ((x - base) / ps) htc1 htc2
  have h2 := h.pages_marked d hd ((x - base) / ps) htd1 htd2
  rw [h1] at h2
  exact hne (Page.allocated.inj (Option.some.inj h2))

theorem allocate_chunk_none (a : PageArena) (pc : Nat)
    (h : (a.allocate_chunk pc).1 = none) : a.allocate_chunk pc = (none, a) := by
  unfold PageArena.allocate_chunk at h ⊢
  rcases hf : a.find_first_free_chunk pc with _ | k0
  · rfl
  · rw [hf] at h
    exact absurd h (by simp)

theorem allocate_unaligned_error (s : PageSuballocator) (sz : Nat) (e : AllocError)
    (s1 : PageSuballocator) (h : s.allocate_unaligned sz = (.error e, s1)) :
    e = .noContiguousChunk ∧ s1 = s := by
  unfold PageSuballocator.allocate_unaligned at h
  rcases hchunk : s.arena.allocate_chunk (div_ceil sz s.page_size_in_bytes)
    with ⟨r, arena1⟩
  rw [hchunk] at h
  cases r with
  | none =>
    have hc : (none, arena1) = ((none : Option Nat), s.arena) := by
      rw [← hchunk]
      exact allocate_chunk_none s.arena _ (by rw [hchunk])
    have harena : arena1 = s.arena := congrArg Prod.snd hc
    subst harena
    simp only at h
    injection h with h1 h2
    exact ⟨(Except.error.inj h1).symm, h2.symm⟩
  | some k =>
    simp only at h
    injection h with h1 h2
    exact Except.noConfusion h1

theorem allocate_error_state (s : PageSuballocator) (sz al : Nat) (e : AllocError)
    (s1 : PageSuballocator) (h : s.allocate sz al = (.error e, s1)) :
    e = .noContiguousChunk ∧ s1 = s := by
  unfold PageSuballocator.allocate at h
  by_cases hcond : (s.allocation.offset_in_bytes + s.page_size_in_bytes) % al = 0
  · rw [if_pos hcond] at h
    exact allocate_unaligned_error s sz e s1 h
  · rw [if_neg hcond] at h
    rcases hun : s.allocate_unaligned (sz + (al - 1)) with ⟨r, s2⟩
    rw [hun] at h
    cases r with
    | error e2 =>
      simp only at h
      injection h with h1 h2
      obtain ⟨he2, hs2⟩ := allocate_unaligned_error s (sz + (al - 1)) e2 s2 hun
      subst h2
      exact ⟨(Except.error.inj h1).symm ▸ he2, hs2⟩
    | ok u =>
      simp only at h
      injection h with h1 h2
      exact Except.noConfusion h1

theorem allocate_unaligned_ok_cases (s : PageSuballocator) (sz : Nat) (a : Allocation)
    (hps : 1 ≤ s.page_size_in_bytes) (hsz : 1 ≤ sz) (hlt : sz < 2 ^ 64)
    (hres : (s.allocate_unaligned sz).1 = .ok a) :
    ∃ k n,
      1 ≤ n
      ∧ (s.allocate_unaligned sz).2
          = { s with arena := { pages := setChunkAux k n s.arena.pages 0,
                                allocation_count := s.arena.allocation_count + 1 } }
      ∧ k + n ≤ s.arena.pages.length
      ∧ (∀ j, k ≤ j → j < k + n → s.arena.pages.get? j = some Page.free)
      ∧ a = Allocation.suballocate s.allocation (k * s.page_size_in_bytes) sz
      ∧ sz ≤ n * s.page_size_in_bytes := by
  obtain ⟨k, hk, ha⟩ := allocate_unaligned_ok_shape s sz a hres
  set n := div_ceil sz s.page_size_in_bytes with hn
  have hpos : 1 ≤ n := div_ceil_pos hsz hps
  have hlt2 : n < 2 ^ 64 := lt_of_le_of_lt (div_ceil_le_self hsz hps) hlt
  obtain ⟨hfind, heq⟩ := allocate_chunk_some s.arena n k hk
  obtain ⟨hbound, hfree⟩ := find_first_free_chunk_sound s.arena n k hpos hlt2 hfind
  refine ⟨k, n, hpos, ?_, hbound, hfree, ha, div_ceil_mul_ge sz _ hps⟩
  unfold PageSuballocator.allocate_unaligned
  rw [heq]

theorem allocate_ok_cases (s : PageSuballocator) (size al : Nat) (a : Allocation)
    (hps : 1 ≤ s.page_size_in_bytes) (hs : 1 ≤ size) (hal : 1 ≤ al)
    (hbnd : size + al ≤ 2 ^ 64)
    (hres : (s.allocate size al).1 = .ok a) :
    ∃ k n,
      1 ≤ n
      ∧ (s.allocate size al).2
          = { s with arena := { pages := setChunkAux k n s.arena.pages 0,
                                allocation_count := s.arena.allocation_count + 1 } }
      ∧ k + n ≤ s.arena.pages.length
      ∧ (∀ j, k ≤ j → j < k + n → s.arena.pages.get? j = some Page.free)
      ∧ a.memory = s.allocation.memory
      ∧ a.size_in_bytes = size
      ∧ s.allocation.offset_in_bytes + k * s.page_size_in_bytes ≤ a.offset_in_bytes
      ∧ a.offset_in_bytes + a.size_in_bytes
          ≤ s.allocation.offset_in_bytes + (k + n) * s.page_size_in_bytes := by
  unfold PageSuballocator.allocate at hres ⊢
  by_cases hcond : (s.allocation.offset_in_bytes + s.page_size_in_bytes) % al = 0
  · rw [if_pos hcond] at hres ⊢
    obtain ⟨k, n, hn1, hstate, hkn, hfree, ha, hsz⟩ :=
      allocate_unaligned_ok_cases s size a hps hs (by omega) hres
    subst ha
    refine ⟨k, n, hn1, hstate, hkn, hfree, rfl, rfl, Nat.le_refl _, ?_⟩
    simp only [Allocation.suballocate]
    have hexp : (k + n) * s.page_size_in_bytes
        = k * s.page_size_in_bytes + n * s.page_size_in_bytes := by ring
    rw [hexp]
    linarith [hsz]
  · rw [if_neg hcond] at hres ⊢
    rcases hun : s.allocate_unaligned (size + (al - 1)) with ⟨r, s1⟩
    rw [hun] at hres
    cases r with
    | error e => exact absurd hres (by simp)
    | ok u =>
      simp only at hres ⊢
      replace hres := (Except.ok.inj hres).symm
      obtain ⟨k, n, hn1, hstate, hkn, hfree, hu, hsz⟩ :=
        allocate_unaligned_ok_cases s (size + (al - 1)) u hps (by omega) (by omega)
          (by rw [hun])
      rw [hun] at hstate
      simp only at hstate
      subst hres
      subst hu
      have hc := @alignmentCorrection_le
        ((s.allocation.suballocate (k * s.page_size_in_bytes)
            (size + (al - 1))).offset_in_bytes)
        al hal
      refine ⟨k, n, hn1, hstate, hkn, hfree, rfl, rfl, ?_, ?_⟩
      · simp only [Allocation.suballocate]
        exact Nat.le_add_right _ _
      · simp only [Allocation.suballocate] at hc ⊢
        have hexp : (k + n) * s.page_size_in_bytes
            = k * s.page_size_in_bytes + n * s.page_size_in_bytes := by ring
        rw [hexp]
        linarith [hsz, hc]

theorem map_eraseIdx {α β : Type} (f : α → β) :
    ∀ (l : List α) (i : Nat), (l.eraseIdx i).map f = (l.map f).eraseIdx i := by
  intro l
  induction l with
  | nil => intro i; rfl
  | cons x xs ih =>
    intro i
    cases i with
    | zero => rfl
    | succ i =>
      show f x :: (xs.eraseIdx i).map f = f x :: (xs.map f).eraseIdx i
      rw [ih i]

theorem eraseIdx_start_ne :
    ∀ (l : List LiveChunk) (i : Nat) (c : LiveChunk),
      l.get? i = some c → l.Pairwise (fun a b => a.start ≠ b.start) →
      ∀ d ∈ l.eraseIdx i, d.start ≠ c.start := by
  intro l
  induction l with
  | nil => intro i c hget; exact absurd hget (by simp)
  | cons x xs ih =>
    intro i c hget hp
    rw [List.pairwise_cons] at hp
    cases i with
    | zero =>
      injection hget with hxc
      subst hxc
      intro d hd
      exact fun heq => hp.1 d hd heq.symm
    | succ i =>
      intro d hd
      rcases List.mem_cons.mp hd with hdx | hdxs
      · subst hdx
        exact hp.1 c (List.get?_mem hget)
      · exact ih i c hget hp.2 d hdxs

theorem mem_eraseIdx_of_ne {α : Type} :
    ∀ (l : List α) (i : Nat) (c d : α),
      l.get? i = some c → d ∈ l → d ≠ c → d ∈ l.eraseIdx i := by
  intro l
  induction l with
  | nil => intro i c d hget; exact absurd hget (by simp)
  | cons x xs ih =>
    intro i c d hget hd hne
    cases i with
    | zero =>
      injection hget with hxc
      subst hxc
      rcases List.mem_cons.mp hd with h1 | h1
      · exact absurd h1 hne
      · exact h1
    | succ i =>
      show d ∈ x :: xs.eraseIdx i
      rcases List.mem_cons.mp hd with h1 | h1
      · subst h1; exact List.mem_cons_self _ _
      · exact List.mem_cons_of_mem x (ih i c d hget h1 hne)

theorem pairwise_start_inj :
    ∀ (l : List LiveChunk), l.Pairwise (fun a b => a.start ≠ b.start) →
      ∀ a ∈ l, ∀ b ∈ l, a.start = b.start → a = b := by
  intro l
  induction l with
  | nil => intro _ a ha; exact absurd ha (by simp)
  | cons x xs ih =>
    intro hp a ha b hb heq
    rw [List.pairwise_cons] at hp
    rcases List.mem_cons.mp ha with h1 | h1 <;> rcases List.mem_cons.mp hb with h2 | h2
    · rw [h1, h2]
    · subst h1; exact absurd heq (hp.1 b h2)
    · subst h2; exact absurd heq.symm (hp.1 a h1)
    · exact ih hp.2 a h1 b h2 heq

theorem step_preserves (st : PSState) (op : PSOp) (chunks : List LiveChunk)
    (hinv : ChunksInv st.sub st.live chunks) (hwf : op.wf = true) :
    ∃ chunks2, ChunksInv (st.step op).sub (st.step op).live chunks2 := by
  cases op with
  | alloc size al =>
    simp only [PSOp.wf, Bool.and_eq_true, decide_eq_true_eq] at hwf
    obtain ⟨⟨hs, hal⟩, hbnd⟩ := hwf
    rcases hres : st.sub.allocate size al with ⟨r, sub1⟩
    cases r with
    | error e =>
      obtain ⟨_, hsub⟩ := allocate_error_state st.sub size al e sub1 hres
      subst hsub
      refine ⟨chunks, ?_⟩
      simp only [PSState.step, hres]
      exact hinv
    | ok a =>
      obtain ⟨k, n, hn1, hstate, hkn, hfree, hmem, hsizea, hlow, hupp⟩ :=
        allocate_ok_cases st.sub size al a hinv.ps_pos hs hal hbnd (by rw [hres])
      rw [hres] at hstate
      simp only at hstate
      refine ⟨⟨k, n, a⟩ :: chunks, ?_⟩
      simp only [PSState.step, hres]
      subst hstate
      have hget : ∀ t, (setChunkAux k n st.sub.arena.pages 0).get? t
          = (st.sub.arena.pages.get? t).map
              (fun p => if k ≤ t ∧ t < k + n then Page.allocated k else p) := by
        intro t
        simpa using setChunkAux_get? k n st.sub.arena.pages 0 t
      refine ⟨hinv.ps_pos, ?_, ?_, ?_, ?_, ?_, ?_, ?_, ?_, ?_⟩
      · show a :: chunks.map LiveChunk.alloc = a :: st.live
        rw [hinv.live_eq]
      · intro c hc
        rcases List.mem_cons.mp hc with h1 | h1
        · subst h1; exact hn1
        · exact hinv.count_pos c h1
      · intro c hc i hi1 hi2
        show (setChunkAux k n st.sub.arena.pages 0).get? i
          = some (Page.allocated c.start)
        rcases List.mem_cons.mp hc with h1 | h1
        · subst h1
          rw [hget i, hfree i hi1 hi2]
          simp only [Option.map_some']
          rw [if_pos ⟨hi1, hi2⟩]
        · have hold := hinv.pages_marked c h1 i hi1 hi2
          rw [hget i, hold]
          simp only [Option.map_some']
          have hnot : ¬(k ≤ i ∧ i < k + n) := by
            intro hcon
            rw [hfree i hcon.1 hcon.2] at hold
            exact Page.noConfusion (Option.some.inj hold)
          rw [if_neg hnot]
      · intro c hc
        rcases List.mem_cons.mp hc with h1 | h1
        · subst h1; exact hlow
        · exact hinv.alloc_lower c h1
      · intro c hc
        rcases List.mem_cons.mp hc with h1 | h1
        · subst h1; exact hupp
        · exact hinv.alloc_upper c h1
      · intro c hc
        rcases List.mem_cons.mp hc with h1 | h1
        · subst h1
          show 1 ≤ a.size_in_bytes
          rw [hsizea]; exact hs
        · exact hinv.alloc_size_pos c h1
      · intro c hc
        rcases List.mem_cons.mp hc with h1 | h1
        · subst h1; exact hmem
        · exact hinv.alloc_memory c h1
      · intro i k2 hik
        rw [hget i] at hik
        rcases hcase : st.sub.arena.pages.get? i with _ | p
        · rw [hcase] at hik
          exact absurd hik (by simp)
        · rw [hcase] at hik
          simp only [Option.map_some'] at hik
          by_cases hrange : k ≤ i ∧ i < k + n
          · rw [if_pos hrange] at hik
            have hk2 : k = k2 := Page.allocated.inj (Option.some.inj hik)
            subst hk2
            exact ⟨⟨k, n, a⟩, List.mem_cons_self _ _, rfl, hrange.1, hrange.2⟩
          · rw [if_neg hrange] at hik
            obtain ⟨c, hcmem, hcs, h1, h2⟩ :=
              hinv.marked_covered i k2 (by rw [hcase, hik])
            exact ⟨c, List.mem_cons_of_mem _ hcmem, hcs, h1, by omega⟩
      · rw [List.pairwise_cons]
        refine ⟨?_, hinv.starts_distinct⟩
        intro d hd heq
        have hdmark := hinv.pages_marked d hd d.start (Nat.le_refl _)
          (by have := hinv.count_pos d hd; omega)
        have hkfree := hfree k (Nat.le_refl _) (by omega)
        rw [← heq] at hdmark
        rw [hdmark] at hkfree
        exact Page.noConfusion (Option.some.inj hkfree)
  | free idx =>
    rcases hlget : st.live.get? idx with _ | a
    · refine ⟨chunks, ?_⟩
      simp only [PSState.step, hlget]
      exact hinv
    · have hmapget : (chunks.map LiveChunk.alloc).get? idx = some a := by
        rw [hinv.live_eq]; exact hlget
      rw [List.get?_map] at hmapget
      rcases hcget : chunks.get? idx with _ | c
      · rw [hcget] at hmapget
        exact absurd hmapget (by simp)
      · rw [hcget] at hmapget
        simp only [Option.map_some'] at hmapget
        have hca : c.alloc = a := Option.some.inj hmapget
        subst hca
        have hcmem : c ∈ chunks := List.get?_mem hcget
        have hamem := hinv.alloc_memory c hcmem
        have hlow := hinv.alloc_lower c hcmem
        have hupp := hinv.alloc_upper c hcmem
        have hsz := hinv.alloc_size_pos c hcmem
        have hps0 : 0 < st.sub.page_size_in_bytes := hinv.ps_pos
        have hbase_le : st.sub.allocation.offset_in_bytes ≤ c.alloc.offset_in_bytes :=
          le_trans (Nat.le_add_right _ _) hlow
        have hfree_eq : st.sub.free c.alloc
            = { st.sub with
                arena := st.sub.arena.free_chunk
                  ((c.alloc.offset_in_bytes - st.sub.allocation.offset_in_bytes)
                    / st.sub.page_size_in_bytes) } := by
          unfold PageSuballocator.free
          rw [if_neg (fun h => h hamem.symm)]
        have ht1 : c.start
            ≤ (c.alloc.offset_in_bytes - st.sub.allocation.offset_in_bytes)
              / st.sub.page_size_in_bytes :=
          (Nat.le_div_iff_mul_le hps0).mpr
            (Nat.le_sub_of_add_le (by linarith [hlow]))
        have ht2 : (c.alloc.offset_in_bytes - st.sub.allocation.offset_in_bytes)
              / st.sub.page_size_in_bytes < c.start + c.count :=
          (Nat.div_lt_iff_lt_mul hps0).mpr
            ((Nat.sub_lt_iff_lt_add hbase_le).mpr (by linarith [hupp, hsz]))
        have hmarked := hinv.pages_marked c hcmem _ ht1 ht2
        have hstop : st.sub.arena.pages.get? (c.start + c.count)
            ≠ some (Page.allocated c.start) := by
          intro hcon
          obtain ⟨d, hd, hds, _, hdrange⟩ :=
            hinv.marked_covered (c.start + c.count) c.start hcon
          have hdc : d = c :=
            pairwise_start_inj chunks hinv.starts_distinct d hd c hcmem hds
          subst hdc
          omega
        have hlenrun : c.start + c.count ≤ st.sub.arena.pages.length := by
          have hcount := hinv.count_pos c hcmem
          have hlast := hinv.pages_marked c hcmem (c.start + c.count - 1)
            (by omega) (by omega)
          by_contra hcon
          rw [List.get?_eq_none.mpr (by omega)] at hlast
          exact Option.noConfusion hlast
        have hchar := freeChunkPages_get? st.sub.arena.pages c.start c.count
          hlenrun (hinv.pages_marked c hcmem) hstop
        have hfc : st.sub.arena.free_chunk
            ((c.alloc.offset_in_bytes - st.sub.allocation.offset_in_bytes)
              / st.sub.page_size_in_bytes)
            = { pages := st.sub.arena.pages.take c.start
                  ++ clearRun c.start (st.sub.arena.pages.drop c.start),
                allocation_count := st.sub.arena.allocation_count - 1 } := by
          unfold PageArena.free_chunk
          rw [hmarked]
        refine ⟨chunks.eraseIdx idx, ?_⟩
        simp only [PSState.step, hlget]
        have hsubmem : ∀ d, d ∈ chunks.eraseIdx idx → d ∈ chunks := by
          intro d hd
          exact (List.eraseIdx_sublist chunks idx).subset hd
        refine ⟨?_, ?_, ?_, ?_, ?_, ?_, ?_, ?_, ?_, ?_⟩
        · rw [hfree_eq]
          exact hinv.ps_pos
        · show (chunks.eraseIdx idx).map LiveChunk.alloc = st.live.eraseIdx idx
          rw [map_eraseIdx, hinv.live_eq]
        · exact fun d hd => hinv.count_pos d (hsubmem d hd)
        · intro d hd i hi1 hi2
          show (st.sub.free c.alloc).arena.pages.get? i = some (Page.allocated d.start)
          rw [hfree_eq, hfc]
          show (st.sub.arena.pages.take c.start
              ++ clearRun c.start (st.sub.arena.pages.drop c.start)).get? i
            = some (Page.allocated d.start)
          rw [hchar i]
          have hold := hinv.pages_marked d (hsubmem d hd) i hi1 hi2
          have hnot : ¬(c.start ≤ i ∧ i < c.start + c.count) := by
            intro hcon
            have hmc := hinv.pages_marked c hcmem i hcon.1 hcon.2
            rw [hold] at hmc
            have hdsc : d.start = c.start :=
              Page.allocated.inj (Option.some.inj hmc)
            exact eraseIdx_start_ne chunks idx c hcget hinv.starts_distinct d hd hdsc
          rw [if_neg hnot]
          exact hold
        · intro d hd
          rw [hfree_eq]
          exact hinv.alloc_lower d (hsubmem d hd)
        · intro d hd
          rw [hfree_eq]
          exact hinv.alloc_upper d (hsubmem d hd)
        · exact fun d hd => hinv.alloc_size_pos d (hsubmem d hd)
        · intro d hd
          rw [hfree_eq]
          exact hinv.alloc_memory d (hsubmem d hd)
        · intro i k2 hik
          rw [hfree_eq, hfc] at hik
          replace hik : (st.sub.arena.pages.take c.start
              ++ clearRun c.start (st.sub.arena.pages.drop c.start)).get? i
            = some (Page.allocated k2) := hik
          rw [hchar i] at hik
          by_cases hrange : c.start ≤ i ∧ i < c.start + c.count
          · rw [if_pos hrange] at hik
            exact absurd (Option.some.inj hik) (by intro h; exact Page.noConfusion h)
          · rw [if_neg hrange] at hik
            obtain ⟨d, hd, hds, h1, h2⟩ := hinv.marked_covered i k2 hik
            have hdne : d ≠ c := by
              intro hdc
              subst hdc
              rw [hds] at hrange
              exact hrange ⟨h1, by omega⟩
            exact ⟨d, mem_eraseIdx_of_ne chunks idx c d hcget hd hdne, hds, h1, by omega⟩
        · exact List.Pairwise.sublist (List.eraseIdx_sublist chunks idx)
            hinv.starts_distinct

theorem ChunksInv_init (backing : Allocation) (ps : Nat) (hps : 1 ≤ ps) :
    ChunksInv (PageSuballocator.for_allocation backing ps) [] [] := by
  refine ⟨hps, rfl, ?_, ?_, ?_, ?_, ?_, ?_, ?_, ?_⟩
  · exact fun c hc => absurd hc (by simp)
  · exact fun c hc => absurd hc (by simp)
  · exact fun c hc => absurd hc (by simp)
  · exact fun c hc => absurd hc (by simp)
  · exact fun c hc => absurd hc (by simp)
  · exact fun c hc => absurd hc (by simp)
  · intro i k hik
    exfalso
    have hmem := List.get?_mem hik
    exact Page.noConfusion (List.eq_of_mem_replicate hmem)
  · exact List.Pairwise.nil

theorem run_preserves (ops : List PSOp) :
    ∀ (st : PSState) (chunks : List LiveChunk),
      ChunksInv st.sub st.live chunks → ops.all PSOp.wf = true →
      ∃ chunks2, ChunksInv (st.run ops).sub (st.run ops).live chunks2 := by
  induction ops with
  | nil => exact fun st chunks hinv _ => ⟨chunks, hinv⟩
  | cons op ops ih =>
    intro st chunks hinv hwf
    simp only [List.all_cons, Bool.and_eq_true] at hwf
    obtain ⟨chunks1, h1⟩ := step_preserves st op chunks hinv hwf.1
    exact ih (st.step op) chunks1 h1 hwf.2

/-- C2 (amended): within one `PageSuballocator` (page size at least 1,
backing size a multiple of the page size), after any sequence of
`allocate` calls with positive `u64` sizes and nonzero alignments
(`size_in_bytes + alignment <= 2^64`) and `free` calls on live
sub-allocations, the byte ranges of the live sub-allocations are
pairwise disjoint.  Zero-sized allocate calls can break this; see the
counterexample. -/
theorem c2_live_suballocations_disjoint (backing : Allocation)
    (page_size_in_bytes : Nat) (ops : List PSOp)
    (hps : 1 ≤ page_size_in_bytes)
    (hmult : backing.size_in_bytes % page_size_in_bytes = 0)
    (hwf : ops.all PSOp.wf = true) :
    (((PSState.mk (PageSuballocator.for_allocation backing page_size_in_bytes) []).run
        ops).live).Pairwise rangesDisjoint := by
  have hmult2 := hmult
  obtain ⟨chunks2, h2⟩ := run_preserves ops
    (PSState.mk (PageSuballocator.for_allocation backing page_size_in_bytes) []) []
    (ChunksInv_init backing page_size_in_bytes hps) hwf
  exact h2.disjoint

/-- C2 (counterexample): with zero-sized requests allowed, live
sub-allocations can overlap.  On an 8-page suballocator (page size 1,
backing offset 0): `allocate(1,1)` takes page 0; `allocate(0,4)` takes
the alignment-correction path, reserving pages 1-3 and returning the
empty allocation at offset 4; `allocate(4,1)` takes pages 4-7 at offset
4; freeing the empty allocation divides offset 4 down to page index 4
and frees the *other* chunk's pages 4-7; the final `allocate(4,1)` then
hands out offset 4 again while the earlier allocation at offset 4 is
still live. -/
theorem c2_counterexample :
    ((PSState.mk (PageSuballocator.for_allocation (Allocation.mk 0 0 8) 1) []).run
        [PSOp.alloc 1 1, PSOp.alloc 0 4, PSOp.alloc 4 1, PSOp.free 1,
          PSOp.alloc 4 1]).live
      = [Allocation.mk 0 4 4, Allocation.mk 0 4 4, Allocation.mk 0 0 1]
    ∧ ¬ (((PSState.mk (PageSuballocator.for_allocation (Allocation.mk 0 0 8) 1)
          []).run
        [PSOp.alloc 1 1, PSOp.alloc 0 4, PSOp.alloc 4 1, PSOp.free 1,
          PSOp.alloc 4 1]).live).Pairwise rangesDisjoint := by
  have hlist :
      ((PSState.mk (PageSuballocator.for_allocation (Allocation.mk 0 0 8) 1) []).run
        [PSOp.alloc 1 1, PSOp.alloc 0 4, PSOp.alloc 4 1, PSOp.free 1,
          PSOp.alloc 4 1]).live
      = [Allocation.mk 0 4 4, Allocation.mk 0 4 4, Allocation.mk 0 0 1] := by
    decide
  refine ⟨hlist, ?_⟩
  intro hpair
  rw [hlist, List.pairwise_cons] at hpair
  exact hpair.1 (Allocation.mk 0 4 4) (by simp) 4
    ⟨by decide, by decide, by decide, by decide⟩

/-- Witness for `c2_live_suballocations_disjoint` at a concrete input. -/
theorem c2_witness :
    ([PSOp.alloc 2 1, PSOp.alloc 1 2, PSOp.free 0].all PSOp.wf = true)
    ∧ (((PSState.mk (PageSuballocator.for_allocation (Allocation.mk 0 0 8) 1) []).run
        [PSOp.alloc 2 1, PSOp.alloc 1 2, PSOp.free 0]).live).Pairwise
        rangesDisjoint := by
  refine ⟨by decide, ?_⟩
  exact c2_live_suballocations_disjoint (Allocation.mk 0 0 8) 1
    [PSOp.alloc 2 1, PSOp.alloc 1 2, PSOp.free 0] (by decide) (by decide) (by decide)

/-! ## C9: sub-allocations stay inside the backing allocation -/

/-- The shape `PageSuballocator::for_allocation` establishes: a positive
page size whose multiples tile the backing allocation exactly. -/
def PageSuballocator.WellFormed (s : PageSuballocator) : Prop :=
  1 ≤ s.page_size_in_bytes
  ∧ s.arena.pages.length * s.page_size_in_bytes = s.allocation.size_in_bytes

theorem for_allocation_wellFormed (backing : Allocation) (ps : Nat)
    (hps : 1 ≤ ps) (hmult : backing.size_in_bytes % ps = 0) :
    (PageSuballocator.for_allocation backing ps).WellFormed := by
  refine ⟨hps, ?_⟩
  show (List.replicate (backing.size_in_bytes / ps) Page.free).length * ps
    = backing.size_in_bytes
  rw [List.length_replicate]
  exact Nat.div_mul_cancel (Nat.dvd_of_mod_eq_zero hmult)

/-- C9: on a well-formed `PageSuballocator`, every sub-allocation
returned `Ok` by `allocate` lies entirely inside the backing
allocation, and every `Allocation::suballocate` call evaluated on that
path satisfies its bounds assertion: the final sub-allocation sits
inside the backing allocation, and on the alignment-correction path the
intermediate unaligned sub-allocation sits inside the backing allocation
and the final one inside it. -/
theorem c9_suballocation_in_bounds (s : PageSuballocator)
    (size_in_bytes alignment : Nat) (a : Allocation)
    (hwf : s.WellFormed) (hal : 1 ≤ alignment)
    (hlen : s.arena.pages.length < 2 ^ 64)
    (hbnd : size_in_bytes + alignment ≤ 2 ^ 64)
    (hok : (s.allocate size_in_bytes alignment).1 = .ok a) :
    s.allocation.offset_in_bytes ≤ a.offset_in_bytes
    ∧ a.offset_in_bytes + a.size_in_bytes
        ≤ s.allocation.offset_in_bytes + s.allocation.size_in_bytes
    ∧ ((s.allocation.offset_in_bytes + s.page_size_in_bytes) % alignment ≠ 0 →
        ∀ u, (s.allocate_unaligned (size_in_bytes + (alignment - 1))).1 = .ok u →
          s.allocation.offset_in_bytes ≤ u.offset_in_bytes
          ∧ u.offset_in_bytes + u.size_in_bytes
              ≤ s.allocation.offset_in_bytes + s.allocation.size_in_bytes
          ∧ u.offset_in_bytes ≤ a.offset_in_bytes
          ∧ a.offset_in_bytes + a.size_in_bytes
              ≤ u.offset_in_bytes + u.size_in_bytes) := by
  obtain ⟨hps, htile⟩ := hwf
  unfold PageSuballocator.allocate at hok
  by_cases hcond :
      (s.allocation.offset_in_bytes + s.page_size_in_bytes) % alignment = 0
  · rw [if_pos hcond] at hok
    rcases Nat.eq_zero_or_pos size_in_bytes with hz | hpos
    · exfalso
      subst hz
      have hdc : div_ceil 0 s.page_size_in_bytes = 0 := by
        simp [div_ceil, Nat.zero_mod, Nat.zero_div]
      unfold PageSuballocator.allocate_unaligned at hok
      rw [hdc, allocate_chunk_zero_none s.arena hlen] at hok
      exact absurd hok (by simp)
    · obtain ⟨k, n, hn1, _, hkn, _, ha, hsz⟩ :=
        allocate_unaligned_ok_cases s size_in_bytes a hps hpos (by omega) hok
      subst ha
      simp only [Allocation.suballocate]
      have hmul : (k + n) * s.page_size_in_bytes
          ≤ s.arena.pages.length * s.page_size_in_bytes :=
        Nat.mul_le_mul_right _ hkn
      have hexp : (k + n) * s.page_size_in_bytes
          = k * s.page_size_in_bytes + n * s.page_size_in_bytes := by ring
      refine ⟨Nat.le_add_right _ _, ?_, fun hx => absurd hcond hx⟩
      rw [← htile]
      linarith [hsz, hmul, hexp.ge, hexp.le]
  · rw [if_neg hcond] at hok
    have hal2 : 2 ≤ alignment := by
      rcases Nat.lt_or_ge alignment 2 with h2 | h2
      · exfalso
        have : alignment = 1 := by omega
        rw [this] at hcond
        exact hcond (Nat.mod_one _)
      · exact h2
    rcases hun : s.allocate_unaligned (size_in_bytes + (alignment - 1)) with ⟨r, s1⟩
    rw [hun] at hok
    cases r with
    | error e => exact absurd hok (by simp)
    | ok u0 =>
      simp only at hok
      replace hok := (Except.ok.inj hok).symm
      subst hok
      obtain ⟨k, n, hn1, _, hkn, _, hu, hsz⟩ :=
        allocate_unaligned_ok_cases s (size_in_bytes + (alignment - 1)) u0 hps
          (by omega) (by omega) (by rw [hun])
      have hc := @alignmentCorrection_le u0.offset_in_bytes alignment hal
      have hmul : (k + n) * s.page_size_in_bytes
          ≤ s.arena.pages.length * s.page_size_in_bytes :=
        Nat.mul_le_mul_right _ hkn
      have hexp : (k + n) * s.page_size_in_bytes
          = k * s.page_size_in_bytes + n * s.page_size_in_bytes := by ring
      have hu_low : s.allocation.offset_in_bytes ≤ u0.offset_in_bytes := by
        rw [hu]
        simp only [Allocation.suballocate]
        exact Nat.le_add_right _ _
      have hu_high : u0.offset_in_bytes + u0.size_in_bytes
          ≤ s.allocation.offset_in_bytes + s.allocation.size_in_bytes := by
        rw [hu]
        simp only [Allocation.suballocate]
        rw [← htile]
        linarith [hsz, hmul, hexp.le]
      have ha_low : u0.offset_in_bytes
          ≤ (u0.suballocate (alignmentCorrection u0.offset_in_bytes alignment)
              size_in_bytes).offset_in_bytes := by
        simp only [Allocation.suballocate]
        exact Nat.le_add_right _ _
      have ha_high : (u0.suballocate (alignmentCorrection u0.offset_in_bytes alignment)
              size_in_bytes).offset_in_bytes
            + (u0.suballocate (alignmentCorrection u0.offset_in_bytes alignment)
              size_in_bytes).size_in_bytes
          ≤ u0.offset_in_bytes + u0.size_in_bytes := by
        simp only [Allocation.suballocate]
        have husz : u0.size_in_bytes = size_in_bytes + (alignment - 1) := by
          rw [hu]; rfl
        rw [husz]
        omega
      refine ⟨le_trans hu_low ha_low, le_trans ha_high hu_high, ?_⟩
      intro _ u hu2
      simp only at hu2
      have huu : u0 = u := Except.ok.inj hu2
      subst huu
      exact ⟨hu_low, hu_high, ha_low, ha_high⟩

/-- Witness for `c9_suballocation_in_bounds` at a concrete input. -/
theorem c9_witness :
    ((PageSuballocator.for_allocation (Allocation.mk 7 8 16) 4).allocate 3 8).1
        = Except.ok (Allocation.mk 7 8 3)
    ∧ (PageSuballocator.for_allocation (Allocation.mk 7 8 16) 4).allocation.offset_in_bytes
        ≤ (Allocation.mk 7 8 3).offset_in_bytes
    ∧ (Allocation.mk 7 8 3).offset_in_bytes + (Allocation.mk 7 8 3).size_in_bytes
        ≤ (PageSuballocator.for_allocation (Allocation.mk 7 8 16) 4).allocation.offset_in_bytes
          + (PageSuballocator.for_allocation (Allocation.mk 7 8 16) 4).allocation.size_in_bytes := by
  refine ⟨by decide, ?_, ?_⟩
  · exact (c9_suballocation_in_bounds
      (PageSuballocator.for_allocation (Allocation.mk 7 8 16) 4) 3 8
      (Allocation.mk 7 8 3)
      (for_allocation_wellFormed (Allocation.mk 7 8 16) 4 (by decide) (by decide))
      (by decide) (by decide) (by decide) (by decide)).1
  · exact (c9_suballocation_in_bounds
      (PageSuballocator.for_allocation (Allocation.mk 7 8 16) 4) 3 8
      (Allocation.mk 7 8 3)
      (for_allocation_wellFormed (Allocation.mk 7 8 16) 4 (by decide) (by decide))
      (by decide) (by decide) (by decide) (by decide)).2.1

/-! ## C7: `DeviceMemory` map/unmap -/

/-- From `device_memory.rs`: the mutex-guarded `MappedPtr` record.  The
host pointer is embedded as a `Nat` address with `0` for null. -/
structure MappedPtr where
  host_accessible_ptr : Nat
  map_count : Nat
deriving DecidableEq, Repr

/-- From `device_memory.rs`: `MappedPtr::default()` — null pointer,
`map_count = 0`. -/
def MappedPtr.default : MappedPtr :=
  { host_accessible_ptr := 0, map_count := 0 }

/-- From `device_memory.rs`: `DeviceMemory::map`.  The underlying
`vkMapMemory` call is modelled by its outcome `api : Option Nat`
(`some p` = success returning pointer `p`, `none` = failure propagated
by `?`); the API is consulted only when `map_count == 0`. -/
def DeviceMemory.map (s : MappedPtr) (api : Option Nat) :
    Except Unit Nat × MappedPtr :=
  if s.map_count = 0 then
    match api with
    | none => (.error (), s)
    | some p => (.ok p, { host_accessible_ptr := p, map_count := s.map_count + 1 })
  else
    (.ok s.host_accessible_ptr, { s with map_count := s.map_count + 1 })

/-- From `device_memory.rs`: `DeviceMemory::unmap`.  `vkUnmapMemory`
returns nothing, so only the state transition is modelled. -/
def DeviceMemory.unmap (s : MappedPtr) : Except Unit Unit × MappedPtr :=
  if s.map_count = 0 then
    (.error (), s)
  else if s.map_count = 1 then
    (.ok (), { host_accessible_ptr := 0, map_count := s.map_count - 1 })
  else
    (.ok (), { s with map_count := s.map_count - 1 })

/-- One call against a `DeviceMemory`, with the API outcome of a `map`
attached. -/
inductive MapOp where
  | map (api : Option Nat)
  | unmap
deriving Repr

def MapOp.apiOk : MapOp → Bool
  | .map (some p) => decide (p ≠ 0)
  | .map none => true
  | .unmap => true

def MappedPtr.step (s : MappedPtr) : MapOp → MappedPtr
  | .map api => (DeviceMemory.map s api).2
  | .unmap => (DeviceMemory.unmap s).2

def MappedPtr.run (s : MappedPtr) : List MapOp → MappedPtr
  | [] => s
  | op :: ops => (s.step op).run ops

theorem map_null_iff_step (s : MappedPtr) (op : MapOp)
    (hop : op.apiOk = true)
    (hinv : s.map_count = 0 ↔ s.host_accessible_ptr = 0) :
    (s.step op).map_count = 0 ↔ (s.step op).host_accessible_ptr = 0 := by
  obtain ⟨ptr, count⟩ := s
  cases op with
  | map api =>
    cases api with
    | none =>
      by_cases h0 : count = 0
      · simp only [MappedPtr.step, DeviceMemory.map, if_pos h0]
        exact hinv
      · simp only [MappedPtr.step, DeviceMemory.map, if_neg h0]
        constructor
        · intro h; omega
        · intro h; exact absurd (hinv.mpr h) h0
    | some p =>
      simp only [MapOp.apiOk, decide_eq_true_eq] at hop
      by_cases h0 : count = 0
      · simp only [MappedPtr.step, DeviceMemory.map, if_pos h0]
        omega
      · simp only [MappedPtr.step, DeviceMemory.map, if_neg h0]
        constructor
        · intro h; omega
        · intro h; exact absurd (hinv.mpr h) h0
  | unmap =>
    by_cases h0 : count = 0
    · simp only [MappedPtr.step, DeviceMemory.unmap, if_pos h0]
      exact hinv
    · by_cases h1 : count = 1
      · simp only [MappedPtr.step, DeviceMemory.unmap, if_neg h0, if_pos h1]
        simp only [iff_true]
        omega
      · simp only [MappedPtr.step, DeviceMemory.unmap, if_neg h0, if_neg h1]
        constructor
        · intro h; omega
        · intro h; exact absurd (hinv.mpr h) h0

theorem map_null_iff_run (ops : List MapOp) :
    ∀ s : MappedPtr, ops.all MapOp.apiOk = true →
      (s.map_count = 0 ↔ s.host_accessible_ptr = 0) →
      ((s.run ops).map_count = 0 ↔ (s.run ops).host_accessible_ptr = 0) := by
  induction ops with
  | nil => exact fun s _ hinv => hinv
  | cons op ops ih =>
    intro s hall hinv
    simp only [List.all_cons, Bool.and_eq_true] at hall
    exact ih (s.step op) hall.2 (map_null_iff_step s op hall.1 hinv)

theorem map_map_same (s : MappedPtr) (api1 api2 : Option Nat) (p : Nat)
    (h1 : (DeviceMemory.map s api1).1 = .ok p) :
    (DeviceMemory.map (DeviceMemory.map s api1).2 api2).1 = .ok p := by
  obtain ⟨ptr, count⟩ := s
  by_cases h0 : count = 0
  · cases api1 with
    | none => simp [DeviceMemory.map, h0] at h1
    | some q =>
      simp only [DeviceMemory.map, if_pos h0] at h1
      have hqp := Except.ok.inj h1
      subst hqp
      simp [DeviceMemory.map, h0]
  · simp only [DeviceMemory.map, if_neg h0] at h1
    have hqp := Except.ok.inj h1
    subst hqp
    simp [DeviceMemory.map, h0]

/-- C7: for every `DeviceMemory` mapping state reachable from a fresh
record by map/unmap calls whose successful API results are non-null:
(1) `map_count == 0` iff the stored host pointer is null; (2) a second
`map` immediately after a successful `map`, with no intervening `unmap`,
returns the same pointer (whatever the second API outcome — the API is
not consulted while `map_count > 0`); (3) `unmap` with `map_count == 0`
returns an error and leaves the state unchanged. -/
theorem c7_device_memory_map_unmap (ops : List MapOp)
    (hall : ops.all MapOp.apiOk = true) :
    ((MappedPtr.default.run ops).map_count = 0
      ↔ (MappedPtr.default.run ops).host_accessible_ptr = 0)
    ∧ (∀ (s : MappedPtr) (api1 api2 : Option Nat) (p : Nat),
        (DeviceMemory.map s api1).1 = .ok p →
        (DeviceMemory.map (DeviceMemory.map s api1).2 api2).1 = .ok p)
    ∧ (∀ s : MappedPtr, s.map_count = 0 →
        DeviceMemory.unmap s = (.error (), s)) := by
  refine ⟨map_null_iff_run ops MappedPtr.default hall
      (by simp [MappedPtr.default]), ?_, ?_⟩
  · exact fun s api1 api2 p h1 => map_map_same s api1 api2 p h1
  · intro s h0
    unfold DeviceMemory.unmap
    rw [if_pos h0]

/-- Witness for `c7_device_memory_map_unmap` at a concrete input. -/
theorem c7_witness :
    ([MapOp.map (some 5), MapOp.map (some 9), MapOp.unmap].all MapOp.apiOk = true)
    ∧ ((MappedPtr.default.run [MapOp.map (some 5), MapOp.map (some 9),
          MapOp.unmap]).map_count = 0
        ↔ (MappedPtr.default.run [MapOp.map (some 5), MapOp.map (some 9),
          MapOp.unmap]).host_accessible_ptr = 0) := by
  refine ⟨by decide, ?_⟩
  exact (c7_device_memory_map_unmap
    [MapOp.map (some 5), MapOp.map (some 9), MapOp.unmap] (by decide)).1

/-! ## C8: `TraceAllocator` metrics -/

/-- From `allocation_requirements/dedicated_resource_handle.rs`. -/
inductive DedicatedResourceHandle where
  | buffer (handle : Nat)
  | image (handle : Nat)
  | noResource
deriving DecidableEq, Repr

/-- From `allocation_requirements/mod.rs`: the request descriptor.
Vulkan bitflags are embedded as `Nat` bit masks. -/
structure AllocationRequirements where
  size_in_bytes : Nat
  alignment : Nat
  memory_type_bits : Nat
  memory_type_index : Nat
  memory_properties : Nat
  prefers_dedicated_allocation : Bool
  requires_dedicated_allocation : Bool
  dedicated_resource_handle : DedicatedResourceHandle
deriving DecidableEq, Repr

/-- From `allocation_requirements/mod.rs`: `aligned_size()`. -/
def AllocationRequirements.aligned_size (r : AllocationRequirements) : Nat :=
  r.size_in_bytes + r.alignment - 1

/-- From `trace_allocator.rs`: the `Metrics` record. -/
structure Metrics where
  total_allocations : Nat
  leaked_allocations : Nat
  max_size : Nat
  min_size : Nat
  avg_size : Nat
deriving DecidableEq, Repr

/-- From `trace_allocator.rs`: `Metrics::default()` — all fields zero. -/
def Metrics.default : Metrics :=
  { total_allocations := 0, leaked_allocations := 0,
    max_size := 0, min_size := 0, avg_size := 0 }

/-- From `trace_allocator.rs`: `Metrics::record_allocation`.  The counter
is incremented first; `n` is the updated total. -/
def Metrics.record_allocation (m : Metrics) (size : Nat) : Metrics :=
  { total_allocations := m.total_allocations + 1,
    leaked_allocations := m.leaked_allocations + 1,
    max_size := max m.max_size size,
    min_size := min m.min_size size,
    avg_size := size / (m.total_allocations + 1)
      + ((m.total_allocations + 1 - 1) / (m.total_allocations + 1)) * m.avg_size }

/-- From `trace_allocator.rs`: `Metrics::record_free`. -/
def Metrics.record_free (m : Metrics) : Metrics :=
  { m with leaked_allocations := m.leaked_allocations - 1 }

/-- The metrics after recording a whole sequence of allocation sizes. -/
def Metrics.record_all (m : Metrics) (sizes : List Nat) : Metrics :=
  sizes.foldl Metrics.record_allocation m

theorem record_all_min_size_zero :
    ∀ (sizes : List Nat) (m : Metrics), m.min_size = 0 →
      (m.record_all sizes).min_size = 0 := by
  intro sizes
  induction sizes with
  | nil => exact fun m h => h
  | cons size rest ih =>
    intro m h
    refine ih (m.record_allocation size) ?_
    show min m.min_size size = 0
    rw [h]
    exact Nat.zero_min size

/-- C8 (code bug): `min_size` starts at `Default` (0) and is folded with
`min`, so after recording the single size 5 it is 0, not `min(5) = 5` as
the claim requires; `max_size` is 5 as claimed.  More generally
`min_size` is 0 after every sequence of recorded allocations. -/
theorem c8_min_size_code_bug :
    (Metrics.default.record_all [5]).min_size = 0
    ∧ (Metrics.default.record_all [5]).max_size = 5
    ∧ (Metrics.default.record_all [5]).min_size ≠ 5
    ∧ (∀ sizes : List Nat, (Metrics.default.record_all sizes).min_size = 0) := by
  refine ⟨by decide, by decide, by decide, ?_⟩
  intro sizes
  exact record_all_min_size_zero sizes Metrics.default rfl

/-! ## C6: routing consistency between allocate and free -/

/-- From `allocation.rs` (`Allocation::suballocate`): the requirements
stored on a sub-allocation — the parent requirements with
`size_in_bytes` and `alignment` replaced by the sub-allocation's size
and offset alignment. -/
def suballocate_requirements (parent : AllocationRequirements)
    (size_in_bytes offset_alignment : Nat) : AllocationRequirements :=
  { parent with size_in_bytes := size_in_bytes, alignment := offset_alignment }

/-- From `memory_type_pool_allocator.rs`: the requirements used to
allocate a new backing chunk —
`{ alignment: 1, size_in_bytes: chunk_size, memory_type_index, ..req }`. -/
def chunk_requirements (memory_type_index chunk_size : Nat)
    (req : AllocationRequirements) : AllocationRequirements :=
  { req with alignment := 1, size_in_bytes := chunk_size,
             memory_type_index := memory_type_index }

/-- Modelled from the spec: the `offset_alignment` argument that
`PageSuballocator`'s call sites pass to `Allocation::suballocate` is
missing from the sources (the call sites in
`page_suballocator/mod.rs` pass three arguments while `allocation.rs`
defines four).  Spec §4.6 makes the free-path routing predicate on the
stored requirements agree with the allocate-path predicate on the
original request, and §3 states that an `Allocation` carries the
originating requirements, so the pool sub-allocation carries the
request's own `size_in_bytes` and `alignment`. -/
def pool_suballocation_requirements (memory_type_index chunk_size : Nat)
    (req : AllocationRequirements) : AllocationRequirements :=
  suballocate_requirements (chunk_requirements memory_type_index chunk_size req)
    req.size_in_bytes req.alignment

/-- From `device_allocator.rs`: a `DeviceAllocator` allocation carries
the request's requirements unchanged. -/
def device_allocation_requirements (req : AllocationRequirements) :
    AllocationRequirements :=
  req

/-- From `sized_allocator.rs`: the routing predicate —
`aligned_size() < size_trigger` sends the request to the small
allocator; `free` evaluates the same predicate on the allocation's
stored requirements. -/
def sized_routes_small (size_trigger : Nat) (r : AllocationRequirements) : Bool :=
  decide (r.aligned_size < size_trigger)

/-- From `dedicated_allocator.rs`: the routing predicate —
`prefers_dedicated_allocation || requires_dedicated_allocation` sends
the request to the device allocator; `free` evaluates the same predicate
on the allocation's stored requirements. -/
def dedicated_routes_device (r : AllocationRequirements) : Bool :=
  r.prefers_dedicated_allocation || r.requires_dedicated_allocation

/-- C6: the `SizedAllocator` and `DedicatedAllocator` routing predicates
evaluated at free time on the requirements stored in an allocation give
the same result as at allocate time on the original request, both for
allocations produced directly by the `DeviceAllocator` and for
sub-allocations produced through the pool (whose stored requirements
keep the request's size, alignment and dedicated-allocation flags). -/
theorem c6_free_routing_consistency (size_trigger memory_type_index chunk_size : Nat)
    (req : AllocationRequirements) :
    sized_routes_small size_trigger (device_allocation_requirements req)
        = sized_routes_small size_trigger req
    ∧ dedicated_routes_device (device_allocation_requirements req)
        = dedicated_routes_device req
    ∧ sized_routes_small size_trigger
          (pool_suballocation_requirements memory_type_index chunk_size req)
        = sized_routes_small size_trigger req
    ∧ dedicated_routes_device
          (pool_suballocation_requirements memory_type_index chunk_size req)
        = dedicated_routes_device req :=
  ⟨rfl, rfl, rfl, rfl⟩

/-! ## C5: the `MemoryTypePoolAllocator` size check -/

/-- From `fake_allocator.rs`: a fake composable allocator recording every
request.  `vk::DeviceMemory::null()` is embedded as handle `0`. -/
structure FakeAllocator where
  allocations : List AllocationRequirements
  active_allocations : Nat
  allocation_count : Nat
  offset : Nat
deriving DecidableEq, Repr

def FakeAllocator.default : FakeAllocator :=
  { allocations := [], active_allocations := 0, allocation_count := 0, offset := 0 }

/-- From `fake_allocator.rs`: `FakeAllocator::allocate` — always
succeeds, returning an allocation at the running offset. -/
def FakeAllocator.allocate (f : FakeAllocator) (r : AllocationRequirements) :
    Except AllocError Allocation × FakeAllocator :=
  (.ok { memory := 0, offset_in_bytes := f.offset, size_in_bytes := r.size_in_bytes },
    { allocations := f.allocations ++ [r],
      active_allocations := f.active_allocations + 1,
      allocation_count := f.allocation_count + 1,
      offset := f.offset + r.size_in_bytes })

/-- From `fake_allocator.rs`: `FakeAllocator::free`. -/
def FakeAllocator.free (f : FakeAllocator) (_allocation : Allocation) :
    FakeAllocator :=
  { f with active_allocations := f.active_allocations - 1 }

/-- From `memory_type_pool_allocator.rs`: the pool state, generic over
the inner allocator exactly as the Rust type is generic over
`Allocator: ComposableAllocator`.  The `HashMap<AllocationId,
PageSuballocator>` is embedded as the list of its suballocators in
iteration order; the `AllocationId` keys come from code that is not in
the sources (`allocation.rs` here has no `id`), and no claim exercises
the key-based free path. -/
structure MemoryTypePoolAllocator (σ : Type) where
  memory_type_index : Nat
  chunk_size : Nat
  page_size : Nat
  pool : List PageSuballocator
  allocator : σ

/-- The `for suballocator in self.pool.values_mut()` loop of
`MemoryTypePoolAllocator::allocate`: try each suballocator in order,
returning the first success together with the updated pool. -/
def tryExistingPool (size_in_bytes alignment : Nat) :
    List PageSuballocator → Option (Allocation × List PageSuballocator)
  | [] => none
  | s :: rest =>
    match s.allocate size_in_bytes alignment with
    | (.ok allocation, s1) => some (allocation, s1 :: rest)
    | (.error _, s1) =>
      match tryExistingPool size_in_bytes alignment rest with
      | some (allocation, rest1) => some (allocation, s1 :: rest1)
      | none => none

/-- From `memory_type_pool_allocator.rs`: `allocate`.  The inner
allocator is supplied as a pair of state-transition functions (the
`ComposableAllocator` trait methods). -/
def MemoryTypePoolAllocator.allocate {σ : Type}
    (innerAllocate : σ → AllocationRequirements → Except AllocError Allocation × σ)
    (innerFree : σ → Allocation → σ)
    (p : MemoryTypePoolAllocator σ)
    (allocation_requirements : AllocationRequirements) :
    Except AllocError Allocation × MemoryTypePoolAllocator σ :=
  if p.memory_type_index ≠ allocation_requirements.memory_type_index then
    (.error .memoryTypeMismatch, p)
  else if p.chunk_size ≤ allocation_requirements.aligned_size then
    (.error (.chunkTooBig allocation_requirements.size_in_bytes), p)
  else
    match tryExistingPool allocation_requirements.size_in_bytes
        allocation_requirements.alignment p.pool with
    | some (allocation, pool1) => (.ok allocation, { p with pool := pool1 })
    | none =>
      match innerAllocate p.allocator
          (chunk_requirements p.memory_type_index p.chunk_size
            allocation_requirements) with
      | (.error e, inner1) => (.error e, { p with allocator := inner1 })
      | (.ok chunk_allocation, inner1) =>
        match (PageSuballocator.for_allocation chunk_allocation
            p.page_size).allocate allocation_requirements.size_in_bytes
            allocation_requirements.alignment with
        | (.error e, sub1) =>
          (.error e,
            { p with allocator := innerFree inner1 sub1.release_allocation })
        | (.ok allocation, sub1) =>
          (.ok allocation,
            { p with pool := p.pool ++ [sub1], allocator := inner1 })

/-- C5: with a matching `memory_type_index` (over a fake inner device
allocator), `MemoryTypePoolAllocator::allocate` fails with
`RuntimeError("Unable to allocate a chunk of memory with N bytes")`
(carrying `N = size_in_bytes`) exactly when
`aligned_size() >= chunk_size`, before any suballocator is consulted; in
particular `aligned_size() == chunk_size` fails with this error and
`aligned_size() == chunk_size - 1` passes the size check. -/
theorem c5_chunk_size_boundary (p : MemoryTypePoolAllocator FakeAllocator)
    (req : AllocationRequirements)
    (hmt : p.memory_type_index = req.memory_type_index) :
    (p.allocate FakeAllocator.allocate FakeAllocator.free req).1
        = .error (.chunkTooBig req.size_in_bytes)
      ↔ p.chunk_size ≤ req.aligned_size := by
  unfold MemoryTypePoolAllocator.allocate
  rw [if_neg (fun h => h hmt)]
  by_cases hsize : p.chunk_size ≤ req.aligned_size
  · rw [if_pos hsize]
    exact iff_of_true rfl hsize
  · rw [if_neg hsize]
    refine iff_of_false ?_ hsize
    intro h
    rcases htry : tryExistingPool req.size_in_bytes req.alignment p.pool
      with _ | ⟨allocation, pool1⟩
    · simp only [htry, FakeAllocator.allocate] at h
      split at h
      · rename_i e sub1 heq
        simp at h
        obtain ⟨he, -⟩ := allocate_error_state _ _ _ _ _ heq
        rw [h] at he
        exact AllocError.noConfusion he
      · rename_i allocation2 sub1 heq
        simp at h
    · rw [htry] at h
      simp at h

/-- Witness for `c5_chunk_size_boundary` at the two boundary inputs:
a request whose aligned size equals the chunk size draws the
chunk-too-big error, and one byte smaller does not. -/
theorem c5_witness :
    ((MemoryTypePoolAllocator.mk 0 512 8 [] FakeAllocator.default).allocate
        FakeAllocator.allocate FakeAllocator.free
        (AllocationRequirements.mk 511 2 0 0 0 false false .noResource)).1
      = .error (.chunkTooBig 511)
    ∧ ¬(((MemoryTypePoolAllocator.mk 0 512 8 [] FakeAllocator.default).allocate
        FakeAllocator.allocate FakeAllocator.free
        (AllocationRequirements.mk 510 2 0 0 0 false false .noResource)).1
      = .error (.chunkTooBig 510)) := by
  constructor
  · exact (c5_chunk_size_boundary
      (MemoryTypePoolAllocator.mk 0 512 8 [] FakeAllocator.default)
      (AllocationRequirements.mk 511 2 0 0 0 false false .noResource)
      (by decide)).mpr (by decide)
  · intro h
    have := (c5_chunk_size_boundary
      (MemoryTypePoolAllocator.mk 0 512 8 [] FakeAllocator.default)
      (AllocationRequirements.mk 510 2 0 0 0 false false .noResource)
      (by decide)).mp h
    exact absurd this (by decide)

/-! ## C3: failed allocations, rollback, and the trace metrics -/

/-- From `trace_allocator.rs`: the trace decorator, generic over the
wrapped allocator like the Rust type is over `T: ComposableAllocator`.
The `per_type: HashMap<usize, Metrics>` is embedded as a total function
with `Metrics::default()` for absent keys, which is exactly what
`entry(..).or_default()` produces; the `name` and `properties` fields
only feed the report printed on drop and are omitted. -/
structure TraceAllocator (σ : Type) where
  wrapped_allocator : σ
  total : Metrics
  per_type : Nat → Metrics

/-- From `trace_allocator.rs`: `TraceAllocator::allocate` — both metric
sets record the allocation, then the call is delegated to the wrapped
allocator.  The recording happens whether or not the delegated call
succeeds. -/
def TraceAllocator.allocate {σ : Type}
    (innerAllocate : σ → AllocationRequirements → Except AllocError Allocation × σ)
    (t : TraceAllocator σ) (allocation_requirements : AllocationRequirements) :
    Except AllocError Allocation × TraceAllocator σ :=
  match innerAllocate t.wrapped_allocator allocation_requirements with
  | (r, w1) =>
    (r, { wrapped_allocator := w1,
          total := t.total.record_allocation allocation_requirements.size_in_bytes,
          per_type := fun i =>
            if i = allocation_requirements.memory_type_index then
              (t.per_type i).record_allocation allocation_requirements.size_in_bytes
            else t.per_type i })

/-- C3 (amended): when an allocate fails, a `PageSuballocator` is left
exactly unchanged; a `MemoryTypePoolAllocator` keeps its pool and
configuration unchanged, and its inner allocator is either untouched,
or holds the state the failing inner allocate left, or — when a freshly
created chunk cannot host the triggering request — is rolled back by
freeing exactly that chunk back to the inner allocator before the error
returns.  A `TraceAllocator`, however, records the allocation in its
metrics before delegating, so a failed allocate does change its state:
`total_allocations` grows by one regardless of the outcome. -/
theorem c3_failed_allocate_rollback :
    (∀ (s : PageSuballocator) (size al : Nat) (e : AllocError)
        (s1 : PageSuballocator),
      s.allocate size al = (.error e, s1) → s1 = s)
    ∧ (∀ (σ : Type)
        (iA : σ → AllocationRequirements → Except AllocError Allocation × σ)
        (iF : σ → Allocation → σ) (p : MemoryTypePoolAllocator σ)
        (req : AllocationRequirements) (e : AllocError)
        (p1 : MemoryTypePoolAllocator σ),
      p.allocate iA iF req = (.error e, p1) →
        p1.pool = p.pool ∧ p1.memory_type_index = p.memory_type_index
        ∧ p1.chunk_size = p.chunk_size ∧ p1.page_size = p.page_size
        ∧ (p1.allocator = p.allocator
          ∨ (∃ inner1 : σ,
              iA p.allocator
                  (chunk_requirements p.memory_type_index p.chunk_size req)
                = (.error e, inner1)
              ∧ p1.allocator = inner1)
          ∨ (∃ (chunk : Allocation) (inner1 : σ) (sub1 : PageSuballocator),
              iA p.allocator
                  (chunk_requirements p.memory_type_index p.chunk_size req)
                = (.ok chunk, inner1)
              ∧ (PageSuballocator.for_allocation chunk p.page_size).allocate
                  req.size_in_bytes req.alignment = (.error e, sub1)
              ∧ sub1.release_allocation = chunk
              ∧ p1.allocator = iF inner1 chunk)))
    ∧ (∀ (σ : Type)
        (iA : σ → AllocationRequirements → Except AllocError Allocation × σ)
        (t : TraceAllocator σ) (req : AllocationRequirements),
      ((t.allocate iA req).2).total
          = t.total.record_allocation req.size_in_bytes
        ∧ (((t.allocate iA req).2).total).total_allocations
          = t.total.total_allocations + 1) := by
  refine ⟨?_, ?_, ?_⟩
  · intro s size al e s1 h
    exact (allocate_error_state _ _ _ _ _ h).2
  · intro σ iA iF p req e p1 h
    unfold MemoryTypePoolAllocator.allocate at h
    by_cases hmt : p.memory_type_index ≠ req.memory_type_index
    · rw [if_pos hmt] at h
      injection h with h1 h2
      subst h2
      exact ⟨rfl, rfl, rfl, rfl, .inl rfl⟩
    · rw [if_neg hmt] at h
      by_cases hsize : p.chunk_size ≤ req.aligned_size
      · rw [if_pos hsize] at h
        injection h with h1 h2
        subst h2
        exact ⟨rfl, rfl, rfl, rfl, .inl rfl⟩
      · rw [if_neg hsize] at h
        rcases htry : tryExistingPool req.size_in_bytes req.alignment p.pool
          with _ | ⟨a0, pool1⟩
        · simp only [htry] at h
          rcases hin : iA p.allocator
              (chunk_requirements p.memory_type_index p.chunk_size req)
            with ⟨r0, inner1⟩
          simp only [hin] at h
          cases r0 with
          | error e0 =>
            injection h with h1 h2
            injection h1 with he0
            subst he0
            subst h2
            exact ⟨rfl, rfl, rfl, rfl, .inr (.inl ⟨inner1, rfl, rfl⟩)⟩
          | ok chunk =>
            rcases hsub : (PageSuballocator.for_allocation chunk
                p.page_size).allocate req.size_in_bytes req.alignment
              with ⟨r1, sub1⟩
            simp only [hsub] at h
            cases r1 with
            | error e1 =>
              injection h with h1 h2
              injection h1 with he1
              subst he1
              subst h2
              obtain ⟨-, hs⟩ := allocate_error_state _ _ _ _ _ hsub
              have hrel : sub1.release_allocation = chunk := by
                rw [hs]
                rfl
              refine ⟨rfl, rfl, rfl, rfl,
                .inr (.inr ⟨chunk, inner1, sub1, rfl, hsub, hrel, ?_⟩)⟩
              show iF inner1 sub1.release_allocation = iF inner1 chunk
              rw [hrel]
            | ok a1 =>
              injection h with h1 h2
              exact Except.noConfusion h1
        · simp only [htry] at h
          injection h with h1 h2
          exact Except.noConfusion h1
  · intro σ iA t req
    rcases hin : iA t.wrapped_allocator req with ⟨r, w1⟩
    unfold TraceAllocator.allocate
    rw [hin]
    exact ⟨rfl, rfl⟩

/-- A concrete trace allocator wrapping a memory-type pool over the fake
device allocator, with zeroed metrics. -/
def traceExample : TraceAllocator (MemoryTypePoolAllocator FakeAllocator) :=
  { wrapped_allocator := MemoryTypePoolAllocator.mk 0 512 8 [] FakeAllocator.default,
    total := Metrics.default,
    per_type := fun _ => Metrics.default }

/-- The pool inner allocate function: `MemoryTypePoolAllocator` over the
fake device allocator, as `TraceAllocator` delegates to it. -/
def mtpaInner (s : MemoryTypePoolAllocator FakeAllocator)
    (req : AllocationRequirements) :
    Except AllocError Allocation × MemoryTypePoolAllocator FakeAllocator :=
  s.allocate FakeAllocator.allocate FakeAllocator.free req

/-- A request whose memory type (1) mismatches the pool's (0), so the
delegated allocate fails. -/
def mismatchedRequest : AllocationRequirements :=
  AllocationRequirements.mk 64 1 1 1 0 false false .noResource

/-- Counterexample to C3 as stated: this allocate call fails with a
memory-type-mismatch error, yet the `TraceAllocator` metrics after the
call differ from the metrics before it — `total_allocations` and
`leaked_allocations` were already incremented when the error came back,
because `TraceAllocator::allocate` records before delegating. -/
theorem c3_counterexample :
    (traceExample.allocate mtpaInner mismatchedRequest).1
        = .error .memoryTypeMismatch
      ∧ ((traceExample.allocate mtpaInner mismatchedRequest).2).total
          ≠ traceExample.total
      ∧ (((traceExample.allocate mtpaInner mismatchedRequest).2).total).total_allocations
          = 1 := by
  refine ⟨by decide, ?_, by decide⟩
  intro h
  have : ((traceExample.allocate mtpaInner mismatchedRequest).2).total.total_allocations
      = traceExample.total.total_allocations := by rw [h]
  exact absurd this (by decide)
